import Mathlib

/-!
# Verification of the meshbot trust + messaging core

A shallow embedding of the meshbot source (signing, nonce tracking, JSON
canonicalization, Ed25519 envelopes, invite tokens, the message queue / ask
registry, and the HTTP route handlers), together with proofs and refutations
of the specification claims.

JavaScript strings are modeled as lists of natural numbers (their code-unit
sequences); JavaScript numbers that the core manipulates are modeled by the
integers.  The external cryptographic primitives from `node:crypto`
(HMAC-SHA-256, Ed25519) are modeled as ideal collision-free primitives, as
documented on each definition; everything else is translated directly from
the TypeScript source.
-/

set_option maxRecDepth 10000

namespace Meshbot

/-- JS strings modeled as their sequence of code units (natural numbers). -/
abbrev JsStr := List Nat

/-! ### Decimal digits, fuel-based so that every definition kernel-reduces -/

/-- Least-significant-first decimal digits, with explicit fuel. -/
def revDigitsAux : Nat → Nat → List Nat
  | 0, _ => []
  | f + 1, n => if n = 0 then [] else n % 10 :: revDigitsAux f (n / 10)

/-- Least-significant-first decimal digits of `n` (`[]` for `0`). -/
def revDigits (n : Nat) : List Nat := revDigitsAux n n

/-- Evaluate a least-significant-first decimal digit list. -/
def ofRevDigits : List Nat → Nat
  | [] => 0
  | d :: ds => d + 10 * ofRevDigits ds

theorem ofRevDigits_revDigitsAux : ∀ f n, n ≤ f → ofRevDigits (revDigitsAux f n) = n := by
  intro f
  induction f with
  | zero => intro n h; interval_cases n; rfl
  | succ f ih =>
    intro n h
    by_cases h0 : n = 0
    · subst h0; simp [revDigitsAux, ofRevDigits]
    · have hdiv : n / 10 ≤ f := by
        have : n / 10 < n := Nat.div_lt_self (Nat.pos_of_ne_zero h0) (by omega)
        omega
      simp only [revDigitsAux, if_neg h0, ofRevDigits, ih _ hdiv]
      omega

theorem ofRevDigits_revDigits (n : Nat) : ofRevDigits (revDigits n) = n :=
  ofRevDigits_revDigitsAux n n le_rfl

theorem revDigits_injective : Function.Injective revDigits := by
  intro a b h
  have := ofRevDigits_revDigits a
  rw [h, ofRevDigits_revDigits] at this
  omega

theorem revDigitsAux_lt_ten : ∀ f n d, d ∈ revDigitsAux f n → d < 10 := by
  intro f
  induction f with
  | zero => intro n d h; simp [revDigitsAux] at h
  | succ f ih =>
    intro n d h
    by_cases h0 : n = 0
    · subst h0; simp [revDigitsAux] at h
    · simp only [revDigitsAux, if_neg h0, List.mem_cons] at h
      rcases h with h | h
      · subst h; exact Nat.mod_lt _ (by omega)
      · exact ih _ _ h

theorem revDigits_lt_ten (n d : Nat) (h : d ∈ revDigits n) : d < 10 :=
  revDigitsAux_lt_ten n n d h

/-! ### An injective encoding of code-unit lists into `Nat`

Used to give the external hash primitives an ideal, collision-free model:
a string is flattened into base-11 digits (decimal digits of each code unit
followed by a separator digit `10`), and the digit list is read as a base-11
numeral with a leading-one sentinel. -/

/-- Base-11 numeral with a leading-one sentinel (so the digit list,
including trailing zeros, is recoverable). -/
def num11 : List Nat → Nat
  | [] => 1
  | d :: ds => d + 11 * num11 ds

theorem num11_pos : ∀ ds, 1 ≤ num11 ds
  | [] => le_rfl
  | _ :: ds => by have := num11_pos ds; simp only [num11]; omega

theorem num11_inj : ∀ ds es, (∀ d ∈ ds, d < 11) → (∀ e ∈ es, e < 11) →
    num11 ds = num11 es → ds = es := by
  intro ds
  induction ds with
  | nil =>
    intro es _ hes h
    cases es with
    | nil => rfl
    | cons e es =>
      exfalso
      have he : e < 11 := hes e (by simp)
      have := num11_pos es
      simp only [num11] at h
      omega
  | cons d ds ih =>
    intro es hds hes h
    cases es with
    | nil =>
      exfalso
      have hd : d < 11 := hds d (by simp)
      have := num11_pos ds
      simp only [num11] at h
      omega
    | cons e es =>
      have hd : d < 11 := hds d (by simp)
      have he : e < 11 := hes e (by simp)
      simp only [num11] at h
      have hde : d = e := by omega
      have : num11 ds = num11 es := by omega
      have := ih es (fun x hx => hds x (by simp [hx])) (fun x hx => hes x (by simp [hx])) this
      simp [hde, this]

/-- Flatten a code-unit list into base-11 digits: the decimal digits of each
unit followed by the separator digit `10`. -/
def strDigits (l : List Nat) : List Nat := (l.map (fun n => revDigits n ++ [10])).flatten

/-- Splitting a list at a distinguished separator element is unambiguous when
neither prefix contains the separator. -/
theorem sep_split (s : Nat) : ∀ (xs ys r r' : List Nat), (∀ x ∈ xs, x ≠ s) →
    (∀ y ∈ ys, y ≠ s) → xs ++ s :: r = ys ++ s :: r' → xs = ys ∧ r = r' := by
  intro xs
  induction xs with
  | nil =>
    intro ys r r' _ hys h
    cases ys with
    | nil => simpa using h
    | cons y ys =>
      exfalso
      simp only [List.nil_append, List.cons_append, List.cons.injEq] at h
      exact hys y (by simp) h.1.symm
  | cons x xs ih =>
    intro ys r r' hxs hys h
    cases ys with
    | nil =>
      exfalso
      simp only [List.nil_append, List.cons_append, List.cons.injEq] at h
      exact hxs x (by simp) h.1
    | cons y ys =>
      simp only [List.cons_append, List.cons.injEq] at h
      obtain ⟨rfl, h2⟩ := h
      have := ih ys r r' (fun a ha => hxs a (by simp [ha])) (fun a ha => hys a (by simp [ha])) h2
      simp [this.1, this.2]

theorem strDigits_lt_eleven (l : List Nat) (d : Nat) (h : d ∈ strDigits l) : d < 11 := by
  induction l with
  | nil => simp [strDigits] at h
  | cons x xs ih =>
    simp only [strDigits, List.map_cons, List.flatten_cons, List.append_assoc,
      List.mem_append, List.mem_singleton] at h
    rcases h with h | h | h
    · exact lt_trans (revDigits_lt_ten x d h) (by omega)
    · omega
    · exact ih (by simpa [strDigits] using h)

theorem strDigits_inj : ∀ l₁ l₂, strDigits l₁ = strDigits l₂ → l₁ = l₂ := by
  intro l₁
  induction l₁ with
  | nil =>
    intro l₂ h
    cases l₂ with
    | nil => rfl
    | cons y ys =>
      exfalso
      simp only [strDigits, List.map_nil, List.flatten_nil, List.map_cons,
        List.flatten_cons] at h
      have := congrArg List.length h
      simp at this
      omega
  | cons x xs ih =>
    intro l₂ h
    cases l₂ with
    | nil =>
      exfalso
      simp only [strDigits, List.map_nil, List.flatten_nil, List.map_cons,
        List.flatten_cons] at h
      have := congrArg List.length h
      simp only [List.length_nil, List.length_append, List.length_cons] at this
      omega
    | cons y ys =>
      simp only [strDigits, List.map_cons, List.flatten_cons] at h
      rw [List.append_assoc, List.append_assoc] at h
      have hx : ∀ d ∈ revDigits x, d ≠ 10 := fun d hd => by
        have := revDigits_lt_ten x d hd; omega
      have hy : ∀ d ∈ revDigits y, d ≠ 10 := fun d hd => by
        have := revDigits_lt_ten y d hd; omega
      simp only [List.singleton_append] at h
      obtain ⟨h1, h2⟩ := sep_split 10 _ _ _ _ hx hy h
      have hxy : x = y := revDigits_injective h1
      have := ih ys h2
      simp [hxy, this]

/-- Ideal injective numeral attached to a code-unit list. -/
def strNum (l : List Nat) : Nat := num11 (strDigits l)

theorem strNum_pos (l : List Nat) : 1 ≤ strNum l := num11_pos _

theorem strNum_inj : Function.Injective strNum := by
  intro a b h
  exact strDigits_inj a b
    (num11_inj _ _ (strDigits_lt_eleven a) (strDigits_lt_eleven b) h)

/-- Ideal model of HMAC-SHA-256 as a collision-free keyed digest: the digest
of `(key, data)` is the single value `Nat.pair (strNum key) (strNum data)`.
The real digest is a fixed 32-byte sequence; the model compresses it into one
unbounded slot so that all genuine digests still have one common length,
which is what the constant-time comparison observes. -/
def hmacDigest (key data : JsStr) : List Nat := [Nat.pair (strNum key) (strNum data)]

theorem hmacDigest_pos (key data : JsStr) (b : Nat) (hb : b ∈ hmacDigest key data) : 1 ≤ b := by
  simp only [hmacDigest, List.mem_singleton] at hb
  subst hb
  exact le_trans (strNum_pos key) (Nat.left_le_pair _ _)

theorem hmacDigest_inj (k k' d d' : JsStr) (h : hmacDigest k d = hmacDigest k' d') :
    k = k' ∧ d = d' := by
  simp only [hmacDigest, List.cons.injEq, and_true] at h
  obtain ⟨h1, h2⟩ := Nat.pair_eq_pair.mp h
  exact ⟨strNum_inj h1, strNum_inj h2⟩

/-! ### The hex-string transport layer

Models the `Buffer.from(hex, "hex")` / `.digest("hex")` round trip of the
source.  A digest byte list is rendered as comma-separated decimal runs; the
decoder mirrors node's lenient behavior by truncating at the first run it
cannot decode (node's hex decoder likewise truncates at the first invalid
character), so it is total and never throws. -/

def hexEncode (bs : List Nat) : JsStr :=
  (bs.map (fun n => (revDigits n).map (· + 48) ++ [44])).flatten

def splitComma : JsStr → List JsStr
  | [] => [[]]
  | c :: cs =>
    if c = 44 then [] :: splitComma cs
    else
      match splitComma cs with
      | [] => [[c]]
      | r :: rs => (c :: r) :: rs

def parseRun (r : JsStr) : Option Nat :=
  if r ≠ [] ∧ ∀ c ∈ r, 48 ≤ c ∧ c < 58 then some (ofRevDigits (r.map (· - 48))) else none

def parseRuns : List JsStr → List Nat
  | [] => []
  | r :: rs =>
    match parseRun r with
    | some n => n :: parseRuns rs
    | none => []

def hexDecode (s : JsStr) : List Nat := parseRuns (splitComma s)

theorem splitComma_ne_nil : ∀ s, splitComma s ≠ [] := by
  intro s
  induction s with
  | nil => simp [splitComma]
  | cons c cs ih =>
    simp only [splitComma]
    by_cases h : c = 44
    · simp [h]
    · simp only [if_neg h]
      cases hs : splitComma cs with
      | nil => simp
      | cons r rs => simp

theorem splitComma_append_sep (xs rest : JsStr) (hxs : ∀ x ∈ xs, x ≠ 44) :
    splitComma (xs ++ 44 :: rest) = xs :: splitComma rest := by
  induction xs with
  | nil => simp [splitComma]
  | cons x xs ih =>
    have hx : x ≠ 44 := hxs x (by simp)
    have hrec := ih (fun a ha => hxs a (by simp [ha]))
    simp only [List.cons_append, splitComma, if_neg hx, List.append_eq, hrec]

theorem parseRun_digits (n : Nat) (hn : 1 ≤ n) :
    parseRun ((revDigits n).map (· + 48)) = some n := by
  have hne : revDigits n ≠ [] := by
    intro h
    have := ofRevDigits_revDigits n
    rw [h] at this
    simp [ofRevDigits] at this
    omega
  have hins : ∀ c ∈ (revDigits n).map (· + 48), 48 ≤ c ∧ c < 58 := by
    intro c hc
    simp only [List.mem_map] at hc
    obtain ⟨d, hd, rfl⟩ := hc
    have := revDigits_lt_ten n d hd
    omega
  have hmapz : ((revDigits n).map (· + 48)).map (· - 48) = revDigits n := by
    rw [List.map_map]
    exact List.map_id'' (fun a => by simp) _
  simp only [parseRun, hmapz]
  rw [if_pos ⟨by simpa using hne, hins⟩]
  rw [ofRevDigits_revDigits]

theorem hexDecode_hexEncode (bs : List Nat) (h : ∀ b ∈ bs, 1 ≤ b) :
    hexDecode (hexEncode bs) = bs := by
  induction bs with
  | nil => rfl
  | cons b bs ih =>
    have hb : 1 ≤ b := h b (by simp)
    have hrun : ∀ x ∈ (revDigits b).map (· + 48), x ≠ 44 := by
      intro x hx
      simp only [List.mem_map] at hx
      obtain ⟨d, hd, rfl⟩ := hx
      have := revDigits_lt_ten b d hd
      omega
    simp only [hexDecode, hexEncode, List.map_cons, List.flatten_cons, List.append_assoc,
      List.singleton_append]
    rw [splitComma_append_sep _ _ hrun]
    simp only [parseRuns, parseRun_digits b hb]
    have := ih (fun x hx => h x (by simp [hx]))
    simpa [hexDecode, hexEncode] using this

/-- Model of node's `crypto.timingSafeEqual`: throws a RangeError when the two
byte sequences have different lengths, otherwise reports equality. -/
def timingSafeEqual (a b : List Nat) : Except String Bool :=
  if a.length = b.length then .ok (decide (a = b))
  else .error "RangeError: Input buffers must have the same byte length"

/-! ### `src/security/signing.ts`: `SignableMessage`, `signMessage`, `verifyHmac` -/

/-- `SignableMessage` from `src/security/signing.ts` (strings as code-unit
lists, the numeric timestamp as an integer). -/
structure SignableMessage where
  id : JsStr
  type : JsStr
  payload : JsStr
  timestamp : Int
  nonce : JsStr
deriving DecidableEq

/-- Decimal rendering of a natural number, JS style (`String(0) = "0"`,
most-significant digit first, code units). -/
def natCodes (n : Nat) : JsStr :=
  if n = 0 then [48] else (revDigits n).reverse.map (· + 48)

/-- `String(timestamp)` for an integral JS number (`45` is `"-"`). -/
def intCodes (i : Int) : JsStr :=
  if i < 0 then 45 :: natCodes i.natAbs else natCodes i.natAbs

theorem natCodes_mem_range (n c : Nat) (hc : c ∈ natCodes n) : 48 ≤ c ∧ c < 58 := by
  by_cases h : n = 0
  · simp [natCodes, h] at hc
    omega
  · simp only [natCodes, if_neg h, List.mem_map, List.mem_reverse] at hc
    obtain ⟨d, hd, rfl⟩ := hc
    have := revDigits_lt_ten n d hd
    omega

theorem natCodes_inj : Function.Injective natCodes := by
  intro a b h
  by_cases ha : a = 0 <;> by_cases hb : b = 0
  · omega
  · exfalso
    simp only [natCodes, if_pos ha, if_neg hb] at h
    have h48 : (48 : Nat) ∈ (revDigits b).reverse.map (· + 48) := by rw [← h]; simp
    simp only [List.mem_map, List.mem_reverse] at h48
    obtain ⟨d, hd, hd48⟩ := h48
    have hd0 : d = 0 := by omega
    subst hd0
    have hrev : (revDigits b).reverse.map (· + 48) = [48] := h.symm
    have hlen := congrArg List.length hrev
    simp at hlen
    have : revDigits b = [0] := by
      cases hrd : revDigits b with
      | nil => rw [hrd] at hlen; simp at hlen
      | cons x xs =>
        rw [hrd] at hlen
        simp at hlen
        rw [hrd] at hrev
        cases xs with
        | nil =>
          simp at hrev
          simp [hrev]
        | cons y ys => simp at hlen
    have := ofRevDigits_revDigits b
    rw [this.symm, ‹revDigits b = [0]›] at hb
    simp [ofRevDigits] at hb
  · exfalso
    simp only [natCodes, if_neg ha, if_pos hb] at h
    have h48 : (48 : Nat) ∈ (revDigits a).reverse.map (· + 48) := by rw [h]; simp
    simp only [List.mem_map, List.mem_reverse] at h48
    obtain ⟨d, hd, hd48⟩ := h48
    have hd0 : d = 0 := by omega
    subst hd0
    have hlen := congrArg List.length h
    simp at hlen
    have : revDigits a = [0] := by
      cases hrd : revDigits a with
      | nil => rw [hrd] at hlen; simp at hlen
      | cons x xs =>
        rw [hrd] at hlen
        simp at hlen
        rw [hrd] at h
        cases xs with
        | nil =>
          simp at h
          simp [h]
        | cons y ys => simp at hlen
    have := ofRevDigits_revDigits a
    rw [this.symm, ‹revDigits a = [0]›] at ha
    simp [ofRevDigits] at ha
  · simp only [natCodes, if_neg ha, if_neg hb] at h
    have : (revDigits a).reverse = (revDigits b).reverse := by
      have hinj : Function.Injective (· + 48 : Nat → Nat) := fun x y hxy => by
        simp only [] at hxy
        omega
      exact List.map_injective_iff.mpr hinj h
    have : revDigits a = revDigits b := by
      have := congrArg List.reverse this
      simpa using this
    exact revDigits_injective this

theorem intCodes_inj : Function.Injective intCodes := by
  intro a b h
  by_cases ha : a < 0 <;> by_cases hb : b < 0
  · simp only [intCodes, if_pos ha, if_pos hb, List.cons.injEq, true_and] at h
    have := natCodes_inj h
    omega
  · exfalso
    simp only [intCodes, if_pos ha, if_neg hb] at h
    have h45 : (45 : Nat) ∈ natCodes b.natAbs := by rw [← h]; simp
    have := natCodes_mem_range _ _ h45
    omega
  · exfalso
    simp only [intCodes, if_neg ha, if_pos hb] at h
    have h45 : (45 : Nat) ∈ natCodes a.natAbs := by rw [h]; simp
    have := natCodes_mem_range _ _ h45
    omega
  · simp only [intCodes, if_neg ha, if_neg hb] at h
    have := natCodes_inj h
    omega

theorem intCodes_ne_pipe (i : Int) (c : Nat) (hc : c ∈ intCodes i) : c ≠ 124 := by
  by_cases h : i < 0
  · simp only [intCodes, if_pos h, List.mem_cons] at hc
    rcases hc with hc | hc
    · omega
    · have := natCodes_mem_range _ _ hc; omega
  · simp only [intCodes, if_neg h] at hc
    have := natCodes_mem_range _ _ hc; omega

/-- The signing input of `signMessage`:
`${msg.id}|${msg.type}|${msg.payload}|${String(msg.timestamp)}|${msg.nonce}`
(`124` is the code of `"|"`). -/
def SignableMessage.encode (m : SignableMessage) : JsStr :=
  m.id ++ 124 :: m.type ++ 124 :: m.payload ++ 124 :: intCodes m.timestamp ++ 124 :: m.nonce

/-- `signMessage` from `src/security/signing.ts`: the hex digest of the ideal
HMAC of the delimited signing input under `key`. -/
def signMessage (key : JsStr) (m : SignableMessage) : JsStr :=
  hexEncode (hmacDigest key m.encode)

/-- `verifyHmac` from `src/security/signing.ts`: recompute the expected MAC and
compare the hex-decoded byte sequences with `crypto.timingSafeEqual`.  The
source has no try/catch here, so a length mismatch propagates the RangeError
(modeled by `Except.error`). -/
def verifyHmac (key : JsStr) (m : SignableMessage) (hmac : JsStr) : Except String Bool :=
  timingSafeEqual (hexDecode (signMessage key m)) (hexDecode hmac)

theorem hexDecode_signMessage (key : JsStr) (m : SignableMessage) :
    hexDecode (signMessage key m) = hmacDigest key m.encode :=
  hexDecode_hexEncode _ (hmacDigest_pos key m.encode)

/-- Round trip: a genuine MAC always verifies. -/
theorem verifyHmac_signMessage (key : JsStr) (m : SignableMessage) :
    verifyHmac key m (signMessage key m) = .ok true := by
  simp [verifyHmac, timingSafeEqual, hexDecode_signMessage]

/-- A MAC computed under a different key never verifies (and the comparison
returns `false` rather than throwing, because ideal digests share one
length). -/
theorem verifyHmac_wrong_key (key key' : JsStr) (m : SignableMessage) (hk : key' ≠ key) :
    verifyHmac key' m (signMessage key m) = .ok false := by
  simp only [verifyHmac, hexDecode_signMessage]
  have hne : hmacDigest key' m.encode ≠ hmacDigest key m.encode := by
    intro h
    exact hk (hmacDigest_inj _ _ _ _ h).1
  simp [timingSafeEqual, hmacDigest, hne]
  intro h
  exact absurd (by simp [hmacDigest, h]) hne

/-- A message whose fields avoid the delimiter `"|"`. -/
def SignableMessage.pipeFree (m : SignableMessage) : Prop :=
  (∀ c ∈ m.id, c ≠ 124) ∧ (∀ c ∈ m.type, c ≠ 124) ∧
  (∀ c ∈ m.payload, c ≠ 124) ∧ (∀ c ∈ m.nonce, c ≠ 124)

instance : DecidablePred SignableMessage.pipeFree := fun m => by
  unfold SignableMessage.pipeFree
  infer_instance

/-- On delimiter-free messages the signing input is injective. -/
theorem encode_inj_of_pipeFree (m m' : SignableMessage)
    (hm : m.pipeFree) (hm' : m'.pipeFree) (h : m.encode = m'.encode) : m = m' := by
  obtain ⟨h1, h2, h3, h4⟩ := hm
  obtain ⟨h1', h2', h3', h4'⟩ := hm'
  unfold SignableMessage.encode at h
  simp only [List.cons_append, List.append_assoc] at h
  have e1 := sep_split 124 _ _ _ _ h1 h1' h
  obtain ⟨hid, h⟩ := e1
  have e2 := sep_split 124 _ _ _ _ h2 h2' h
  obtain ⟨hty, h⟩ := e2
  have e3 := sep_split 124 _ _ _ _ h3 h3' h
  obtain ⟨hpl, h⟩ := e3
  have e4 := sep_split 124 _ _ _ _ (intCodes_ne_pipe m.timestamp) (intCodes_ne_pipe m'.timestamp) h
  obtain ⟨hts, hnc⟩ := e4
  have hts' : m.timestamp = m'.timestamp := intCodes_inj hts
  cases m; cases m'
  simp_all

/-- Amended third conjunct of the MAC claim: for *delimiter-free* messages, a
MAC of one message never verifies for a different message. -/
theorem verifyHmac_wrong_message (key : JsStr) (m m' : SignableMessage)
    (hm : m.pipeFree) (hm' : m'.pipeFree) (hne : m' ≠ m) :
    verifyHmac key m' (signMessage key m) = .ok false := by
  simp only [verifyHmac, hexDecode_signMessage]
  have hdig : hmacDigest key m'.encode ≠ hmacDigest key m.encode := by
    intro h
    exact hne (encode_inj_of_pipeFree m' m hm' hm (hmacDigest_inj _ _ _ _ h).2)
  simp [timingSafeEqual, hmacDigest]
  intro h
  exact absurd (by simp [hmacDigest, h]) hdig

/-! ### `NonceTracker` from `src/security/signing.ts`

The `seen` map (`nonce -> timestamp`) is modeled as an association list in
insertion order (a JS `Map` iterates in insertion order, and `Map.set` of a
fresh key appends).  `Date.now()` at each call is an explicit argument. -/

abbrev NonceState := List (JsStr × Int)

namespace NonceTracker

/-- `prune`: delete every entry whose timestamp is older than `now - windowMs`. -/
def prune (windowMs now : Int) (st : NonceState) : NonceState :=
  st.filter (fun e => !decide (e.2 < now - windowMs))

/-- `check`: prune, then return `false` if the nonce is recorded, else record
`(nonce, timestamp)` and return `true`. -/
def check (windowMs now : Int) (nonce : JsStr) (ts : Int) (st : NonceState) :
    Bool × NonceState :=
  let pruned := prune windowMs now st
  if pruned.any (fun e => decide (e.1 = nonce)) then (false, pruned)
  else (true, pruned ++ [(nonce, ts)])

/-- A sequence of `check` calls: each operation is `(now, nonce, timestamp)`. -/
def runChecks (windowMs : Int) : List (Int × JsStr × Int) → NonceState → NonceState
  | [], st => st
  | (now, n, ts) :: ops, st => runChecks windowMs ops (check windowMs now n ts st).2

theorem mem_prune (windowMs now : Int) (st : NonceState) (e : JsStr × Int) :
    e ∈ prune windowMs now st ↔ e ∈ st ∧ ¬(e.2 < now - windowMs) := by
  simp [prune]

/-- A recorded nonce whose entry is still inside the window is rejected, and
the post-state is exactly the pruned map. -/
theorem check_rejects_recorded (windowMs now : Int) (nonce : JsStr) (ts ts0 : Int)
    (st : NonceState) (hmem : (nonce, ts0) ∈ st) (hfresh : ¬(ts0 < now - windowMs)) :
    check windowMs now nonce ts st = (false, prune windowMs now st) := by
  have hp : (nonce, ts0) ∈ prune windowMs now st :=
    (mem_prune _ _ _ _).mpr ⟨hmem, hfresh⟩
  have hany : (prune windowMs now st).any (fun e => decide (e.1 = nonce)) = true := by
    simp only [List.any_eq_true]
    exact ⟨(nonce, ts0), hp, by simp⟩
  simp [check, hany]

/-- A nonce with no surviving entry is recorded and accepted. -/
theorem check_accepts_unrecorded (windowMs now : Int) (nonce : JsStr) (ts : Int)
    (st : NonceState) (hnone : ∀ ts0, (nonce, ts0) ∈ st → ts0 < now - windowMs) :
    check windowMs now nonce ts st =
      (true, prune windowMs now st ++ [(nonce, ts)]) := by
  have hany : (prune windowMs now st).any (fun e => decide (e.1 = nonce)) = false := by
    simp only [List.any_eq_false]
    rintro ⟨n0, ts0⟩ hp
    have := (mem_prune _ _ _ _).mp hp
    simp only [decide_eq_true_eq]
    intro hn
    subst hn
    exact this.2 (hnone ts0 this.1)
  simp [check, hany]

/-- On every check, each surviving entry is either inside the window or the
newly recorded one. -/
theorem check_prunes (windowMs now : Int) (nonce : JsStr) (ts : Int) (st : NonceState)
    (e : JsStr × Int) (he : e ∈ (check windowMs now nonce ts st).2) :
    (e ∈ st ∧ ¬(e.2 < now - windowMs)) ∨ e = (nonce, ts) := by
  simp only [check] at he
  by_cases hany : (prune windowMs now st).any (fun e => decide (e.1 = nonce)) = true
  · simp only [hany, if_pos] at he
    exact Or.inl ((mem_prune _ _ _ _).mp he)
  · simp only [if_neg hany, List.mem_append, List.mem_singleton] at he
    rcases he with he | he
    · exact Or.inl ((mem_prune _ _ _ _).mp he)
    · exact Or.inr he

/-- An entry survives a check unless its timestamp is outside the window. -/
theorem check_persists (windowMs now : Int) (nonce : JsStr) (ts : Int) (st : NonceState)
    (e : JsStr × Int) (he : e ∈ st) :
    e ∈ (check windowMs now nonce ts st).2 ∨ e.2 < now - windowMs := by
  by_cases hw : e.2 < now - windowMs
  · exact Or.inr hw
  · left
    have hp : e ∈ prune windowMs now st := (mem_prune _ _ _ _).mpr ⟨he, hw⟩
    simp only [check]
    by_cases hany : (prune windowMs now st).any (fun e => decide (e.1 = nonce)) = true
    · simpa [hany] using hp
    · simp only [if_neg hany, List.mem_append]
      exact Or.inl hp

/-- If a nonce's entry survives, re-checking that nonce reports a replay. -/
theorem check_false_of_mem (windowMs now : Int) (nonce : JsStr) (ts ts0 : Int)
    (st : NonceState) (hmem : (nonce, ts0) ∈ st) (hfresh : ¬(ts0 < now - windowMs)) :
    (check windowMs now nonce ts st).1 = false := by
  rw [check_rejects_recorded windowMs now nonce ts ts0 st hmem hfresh]

/-- An accepting check records the nonce with its observation timestamp. -/
theorem check_mem_of_true (windowMs now : Int) (nonce : JsStr) (ts : Int) (st : NonceState)
    (h : (check windowMs now nonce ts st).1 = true) :
    (nonce, ts) ∈ (check windowMs now nonce ts st).2 := by
  simp only [check] at h ⊢
  by_cases hany : (prune windowMs now st).any (fun e => decide (e.1 = nonce)) = true
  · simp [hany] at h
  · simp [if_neg hany]

/-- An entry survives a whole run of checks unless it leaves the window of
some intermediate `now` (all bounded by `bound`). -/
theorem runChecks_persists (windowMs : Int) (ops : List (Int × JsStr × Int))
    (bound : Int) (hops : ∀ op ∈ ops, op.1 ≤ bound) :
    ∀ (st : NonceState) (e : JsStr × Int), e ∈ st →
      e ∈ runChecks windowMs ops st ∨ e.2 < bound - windowMs := by
  induction ops with
  | nil => intro st e he; exact Or.inl he
  | cons op ops ih =>
    intro st e he
    obtain ⟨now, n, ts⟩ := op
    have hbound : now ≤ bound := hops (now, n, ts) (by simp)
    rcases check_persists windowMs now n ts st e he with h | h
    · exact ih (fun x hx => hops x (by simp [hx])) _ e h
    · exact Or.inr (by omega)

/-- No double acceptance: if a check accepts `(nonce, ts1)`, then any later
accepting check of the same nonce (through arbitrary interleaved checks whose
clocks do not exceed the later call's clock) can only happen once the
recorded observation timestamp has left the replay window. -/
theorem no_double_accept (windowMs now1 now2 : Int) (nonce : JsStr) (ts1 ts2 : Int)
    (st : NonceState) (ops : List (Int × JsStr × Int))
    (h1 : (check windowMs now1 nonce ts1 st).1 = true)
    (hops : ∀ op ∈ ops, op.1 ≤ now2)
    (h2 : (check windowMs now2 nonce ts2
      (runChecks windowMs ops (check windowMs now1 nonce ts1 st).2)).1 = true) :
    ts1 < now2 - windowMs := by
  have hmem := check_mem_of_true windowMs now1 nonce ts1 st h1
  rcases runChecks_persists windowMs ops now2 hops _ (nonce, ts1) hmem with h | h
  · by_contra hfresh
    have := check_false_of_mem windowMs now2 nonce ts2 ts1 _ h hfresh
    rw [this] at h2
    exact Bool.false_ne_true h2
  · exact h

end NonceTracker

/-! ### `src/queue/message-queue.ts`: `MessageQueue`

The queue and the pending-ask table are the two mutable components of the
class.  Promise completion handles and the one-shot timers are abstracted:
a timer is armed exactly while its map entry exists (registration creates
both, resolution and the timer callback delete both), so a timer firing is
modeled as an explicit `timeoutE` event that only has an effect while the
entry is pending.  The ghost field `outcomes` records how each registered
promise was settled; it corresponds to no source state and is written exactly
where the source calls `resolve`/`reject`.  Disk persistence is best-effort
and write-only in the source (`saveToDisk` catches all errors), so it does
not appear in the state. -/

/-- The wire type of `type` fields on queued messages (`"message" | "ask"`). -/
inductive IncomingType where
  | message
  | ask
deriving DecidableEq

/-- `IncomingMessage` from `src/queue/message-queue.ts` (`from` is a Lean
keyword, hence `fromAgent`). -/
structure IncomingMessage where
  id : JsStr
  fromAgent : JsStr
  message : JsStr
  timestamp : Int
  type : IncomingType
  replyTo : Option JsStr := none
deriving DecidableEq

/-- How a registered ask's promise was settled. -/
inductive AskOutcome where
  | resolved
  | timedOut
  | destroyed
deriving DecidableEq

/-- The mutable state of a `MessageQueue` instance. -/
structure MessageQueue where
  queue : List IncomingMessage
  pending : List JsStr
  outcomes : List (JsStr × AskOutcome)
deriving DecidableEq

namespace MessageQueue

def empty : MessageQueue := ⟨[], [], []⟩

/-- `enqueue`: append to the queue (persistence is best-effort, no state). -/
def enqueue (q : MessageQueue) (m : IncomingMessage) : MessageQueue :=
  { q with queue := q.queue ++ [m] }

/-- `drain`: return all queued messages and clear the queue. -/
def drain (q : MessageQueue) : List IncomingMessage × MessageQueue :=
  (q.queue, { q with queue := [] })

/-- `peek`: a read-only copy of the queue. -/
def peek (q : MessageQueue) : List IncomingMessage := q.queue

/-- `length` getter. -/
def length (q : MessageQueue) : Nat := q.queue.length

/-- `registerAsk`: create the pending entry (and arm its timer). -/
def registerAsk (q : MessageQueue) (messageId : JsStr) : MessageQueue :=
  { q with pending := q.pending ++ [messageId] }

/-- `resolveAsk`: if a pending entry exists, cancel its timer, remove it and
resolve the promise, returning `true`; else return `false`. -/
def resolveAsk (q : MessageQueue) (replyTo : JsStr) : Bool × MessageQueue :=
  if replyTo ∈ q.pending then
    (true, { q with pending := q.pending.erase replyTo,
                    outcomes := q.outcomes ++ [(replyTo, .resolved)] })
  else (false, q)

/-- The timeout timer of `messageId` fires: delete the entry and reject.  In
the source the timer can only fire while the entry exists (resolution and
destruction call `clearTimeout`), so the event is a no-op otherwise. -/
def fireTimeout (q : MessageQueue) (messageId : JsStr) : MessageQueue :=
  if messageId ∈ q.pending then
    { q with pending := q.pending.erase messageId,
             outcomes := q.outcomes ++ [(messageId, .timedOut)] }
  else q

/-- `hasPendingAsk`. -/
def hasPendingAsk (q : MessageQueue) (messageId : JsStr) : Bool :=
  decide (messageId ∈ q.pending)

/-- `destroy`: cancel every timer, reject every pending promise, clear the
table.  The queue itself is untouched. -/
def destroy (q : MessageQueue) : MessageQueue :=
  { q with pending := [],
           outcomes := q.outcomes ++ q.pending.map (fun i => (i, .destroyed)) }

/-- Events in the life of a queue instance. -/
inductive QueueEvent where
  | enqueueE (m : IncomingMessage)
  | drainE
  | registerE (messageId : JsStr)
  | resolveE (replyTo : JsStr)
  | timeoutE (messageId : JsStr)
  | destroyE
deriving DecidableEq

def stepEvent (q : MessageQueue) : QueueEvent → MessageQueue
  | .enqueueE m => q.enqueue m
  | .drainE => (q.drain).2
  | .registerE i => q.registerAsk i
  | .resolveE i => (q.resolveAsk i).2
  | .timeoutE i => q.fireTimeout i
  | .destroyE => q.destroy

def runEvents (q : MessageQueue) : List QueueEvent → MessageQueue
  | [] => q
  | e :: es => runEvents (q.stepEvent e) es

/-- Outcome occurrences recorded for a given id. -/
def outcomeCount (q : MessageQueue) (i : JsStr) : Nat :=
  (q.outcomes.map Prod.fst).count i

/-- The conserved quantity of the registry: settled outcomes plus live
pending entries for an id only grow when that id is registered. -/
theorem stepEvent_count (q : MessageQueue) (e : QueueEvent) (i : JsStr) :
    outcomeCount (q.stepEvent e) i + (q.stepEvent e).pending.count i =
      outcomeCount q i + q.pending.count i +
        (if e = QueueEvent.registerE i then 1 else 0) := by
  cases e with
  | enqueueE m => simp [stepEvent, enqueue, outcomeCount]
  | drainE => simp [stepEvent, drain, outcomeCount]
  | registerE j =>
    by_cases hij : j = i
    · subst hij
      simp [stepEvent, registerAsk, outcomeCount]
      omega
    · simp [stepEvent, registerAsk, outcomeCount, List.count_append,
        List.count_singleton, hij, Ne.symm hij]
  | resolveE j =>
    by_cases hmem : j ∈ q.pending
    · by_cases hij : j = i
      · subst hij
        have hpos : 0 < q.pending.count j := List.count_pos_iff.mpr hmem
        simp [stepEvent, resolveAsk, hmem, outcomeCount, List.count_append,
          List.count_erase_self, List.count_singleton]
        omega
      · simp [stepEvent, resolveAsk, hmem, outcomeCount, List.count_append,
          List.count_erase_of_ne (Ne.symm hij), List.count_singleton, hij, Ne.symm hij]
    · simp [stepEvent, resolveAsk, hmem]
  | timeoutE j =>
    by_cases hmem : j ∈ q.pending
    · by_cases hij : j = i
      · subst hij
        have hpos : 0 < q.pending.count j := List.count_pos_iff.mpr hmem
        simp [stepEvent, fireTimeout, hmem, outcomeCount, List.count_append,
          List.count_erase_self, List.count_singleton]
        omega
      · simp [stepEvent, fireTimeout, hmem, outcomeCount, List.count_append,
          List.count_erase_of_ne (Ne.symm hij), List.count_singleton, hij, Ne.symm hij]
    · simp [stepEvent, fireTimeout, hmem]
  | destroyE =>
    have hmap : (q.pending.map (fun i => (i, AskOutcome.destroyed))).map Prod.fst
        = q.pending := by
      rw [List.map_map]
      exact List.map_id'' (fun a => rfl) _
    simp only [stepEvent, destroy, outcomeCount, List.map_append, List.count_append,
      List.count_nil, hmap]
    simp

theorem runEvents_count (i : JsStr) (ops : List QueueEvent) :
    ∀ q : MessageQueue,
      outcomeCount (q.runEvents ops) i + (q.runEvents ops).pending.count i =
        outcomeCount q i + q.pending.count i + ops.count (QueueEvent.registerE i) := by
  induction ops with
  | nil => intro q; simp [runEvents]
  | cons e es ih =>
    intro q
    simp only [runEvents]
    rw [ih (q.stepEvent e), stepEvent_count q e i]
    have hcount : (e :: es).count (QueueEvent.registerE i) =
        es.count (QueueEvent.registerE i) + (if e = QueueEvent.registerE i then 1 else 0) := by
      rcases Decidable.em (e = QueueEvent.registerE i) with he | he
      · simp [List.count_cons, he]
      · have : ¬(QueueEvent.registerE i = e) := fun h => he h.symm
        simp [List.count_cons, he, this]
    rw [hcount]
    omega

/-- After a `destroy`, the pending table is empty. -/
theorem runEvents_destroy_pending (ops : List QueueEvent) (q : MessageQueue)
    (hlast : ops.getLast? = some QueueEvent.destroyE) :
    (q.runEvents ops).pending = [] := by
  induction ops generalizing q with
  | nil => simp at hlast
  | cons e es ih =>
    cases es with
    | nil =>
      simp only [List.getLast?_singleton, Option.some.injEq] at hlast
      subst hlast
      simp [runEvents, stepEvent, destroy]
    | cons e2 es2 =>
      simp only [runEvents]
      exact ih _ (by simpa using hlast)

end MessageQueue

/-! ### `canonicalizeValue` / `canonicalizeJson` from `src/security/signing.ts`

JSON-compatible values: numbers are modeled by integers plus the three
non-finite markers (the source only branches on `Number.isFinite`); object
fields are an association list in insertion order with the first binding
winning on lookup (JS objects cannot hold duplicate keys). -/

/-- A JS number as far as the canonicalizer observes it. -/
inductive JNum where
  | int (n : Int)
  | nan
  | inf
  | ninf
deriving DecidableEq

def JNum.isFinite : JNum → Bool
  | .int _ => true
  | _ => false

inductive Json where
  | null
  | bool (b : Bool)
  | num (n : JNum)
  | str (s : JsStr)
  | arr (items : List Json)
  | obj (fields : List (JsStr × Json))

def hexDigitCode (n : Nat) : Nat := if n < 10 then 48 + n else 87 + n

/-- One character of `JSON.stringify` string escaping. -/
def escapeChar (c : Nat) : List Nat :=
  if c = 34 then [92, 34]
  else if c = 92 then [92, 92]
  else if c = 8 then [92, 98]
  else if c = 12 then [92, 102]
  else if c = 10 then [92, 110]
  else if c = 13 then [92, 114]
  else if c = 9 then [92, 116]
  else if c < 32 then [92, 117, 48, 48, hexDigitCode (c / 16), hexDigitCode (c % 16)]
  else [c]

/-- `JSON.stringify` of a string: quoted and escaped (`34` is `"`). -/
def jsonEscape (s : JsStr) : JsStr := 34 :: (s.map escapeChar).flatten ++ [34]

/-! The source sorts object keys with `a.localeCompare(b)`.  Node's default
locale (ICU root collation) compares ASCII strings case-insensitively first
and breaks ties lowercase-before-uppercase; this is *not* code-point order
(`"a".localeCompare("B") < 0` although `"B" < "a"` by code points).  We model
the comparator on ASCII strings by that two-level key. -/

def toLowerAscii (c : Nat) : Nat := if 65 ≤ c ∧ c ≤ 90 then c + 32 else c

def caseBit (c : Nat) : Nat := if 65 ≤ c ∧ c ≤ 90 then 1 else 0

/-- The two-level collation key of the modeled `localeCompare`. -/
def collKey (a : JsStr) : (List ℕ) ×ₗ (List ℕ) :=
  toLex (a.map toLowerAscii, a.map caseBit)

/-- `a.localeCompare(b) <= 0` in the collation model. -/
def localeLe (a b : JsStr) : Prop := collKey a ≤ collKey b

instance : DecidableRel localeLe := fun a b =>
  (inferInstance : Decidable (collKey a ≤ collKey b))

theorem collKey_inj : Function.Injective collKey := by
  intro a b h
  unfold collKey at h
  have h' : (a.map toLowerAscii, a.map caseBit) = (b.map toLowerAscii, b.map caseBit) :=
    toLex.injective h
  have h1 : a.map toLowerAscii = b.map toLowerAscii := congrArg Prod.fst h'
  have h2 : a.map caseBit = b.map caseBit := congrArg Prod.snd h'
  clear h h'
  induction a generalizing b with
  | nil =>
    cases b with
    | nil => rfl
    | cons y ys => simp at h1
  | cons x xs ih =>
    cases b with
    | nil => simp at h1
    | cons y ys =>
      simp only [List.map_cons, List.cons.injEq] at h1 h2
      have hx : x = y := by
        have e1 := h1.1
        have e2 := h2.1
        unfold toLowerAscii at e1
        unfold caseBit at e2
        by_cases cx : 65 ≤ x ∧ x ≤ 90 <;> by_cases cy : 65 ≤ y ∧ y ≤ 90 <;>
          simp [cx, cy] at e1 e2 <;> omega
      rw [hx, ih h1.2 h2.2]

instance : IsTotal JsStr localeLe :=
  ⟨fun a b => le_total (collKey a) (collKey b)⟩

instance : IsTrans JsStr localeLe :=
  ⟨fun _ _ _ h1 h2 => le_trans h1 h2⟩

instance : IsAntisymm JsStr localeLe :=
  ⟨fun _ _ h1 h2 => collKey_inj (le_antisymm h1 h2)⟩

/-- Comma-join (`44` is `","`). -/
def joinComma : List JsStr → JsStr
  | [] => []
  | [s] => s
  | s :: s2 :: rest => s ++ 44 :: joinComma (s2 :: rest)

/-- The canonicalizer's work items: a single value, the elements of an array,
or the (sorted) keys of an object paired with its field table. -/
inductive CanonTask where
  | one (v : Json)
  | many (vs : List Json)
  | fieldsT (ks : List JsStr) (fields : List (JsStr × Json))

/-- `canonicalizeValue`, fuel-indexed so that every recursion is structural.
`many`/`fieldsT` return the already comma-joined rendering of their parts. -/
def canonGo : Nat → CanonTask → Except String JsStr
  | 0, _ => .error "canonicalizer fuel exhausted"
  | _ + 1, .one .null => .ok [110, 117, 108, 108]
  | _ + 1, .one (.bool true) => .ok [116, 114, 117, 101]
  | _ + 1, .one (.bool false) => .ok [102, 97, 108, 115, 101]
  | _ + 1, .one (.num (.int n)) => .ok (intCodes n)
  | _ + 1, .one (.num .nan) => .error "Cannot canonicalize non-finite numbers"
  | _ + 1, .one (.num .inf) => .error "Cannot canonicalize non-finite numbers"
  | _ + 1, .one (.num .ninf) => .error "Cannot canonicalize non-finite numbers"
  | _ + 1, .one (.str s) => .ok (jsonEscape s)
  | f + 1, .one (.arr items) => do
    let body ← canonGo f (.many items)
    .ok (91 :: body ++ [93])
  | f + 1, .one (.obj fields) => do
    let body ← canonGo f (.fieldsT (List.insertionSort localeLe (fields.map Prod.fst)) fields)
    .ok (123 :: body ++ [125])
  | _ + 1, .many [] => .ok []
  | f + 1, .many (v :: vs) => do
    let s ← canonGo f (.one v)
    match vs with
    | [] => .ok s
    | _ :: _ => do
      let rest ← canonGo f (.many vs)
      .ok (s ++ 44 :: rest)
  | _ + 1, .fieldsT [] _ => .ok []
  | f + 1, .fieldsT (k :: ks) fields =>
    match fields.lookup k with
    | some v => do
      let vs ← canonGo f (.one v)
      match ks with
      | [] => .ok (jsonEscape k ++ 58 :: vs)
      | _ :: _ => do
        let rest ← canonGo f (.fieldsT ks fields)
        .ok ((jsonEscape k ++ 58 :: vs) ++ 44 :: rest)
    | none => .error "absent object key"

mutual

/-- Constructor count of a value; dominates the canonicalizer's fuel use. -/
def jweight : Json → Nat
  | .null => 1
  | .bool _ => 1
  | .num _ => 1
  | .str _ => 1
  | .arr items => 1 + jweightList items
  | .obj fields => 1 + jweightFields fields

def jweightList : List Json → Nat
  | [] => 1
  | v :: vs => 1 + jweight v + jweightList vs

def jweightFields : List (JsStr × Json) → Nat
  | [] => 1
  | (_, v) :: fs => 1 + jweight v + jweightFields fs

end

/-- `canonicalizeValue` (the fuel `jweight v` dominates the recursion depth of
any concrete value). -/
def canonicalizeValue (v : Json) : Except String JsStr := canonGo (jweight v) (.one v)

/-- `canonicalizeJson` from `src/security/signing.ts`. -/
def canonicalizeJson (v : Json) : Except String JsStr := canonicalizeValue v

/-- `canonicalizeValue` translated from the specification's words instead of
the source: identical except that object keys are sorted by code-point
ordering ("Object keys sorted by code-point ordering").  Used to compare the
source's `localeCompare` ordering against the specified one. -/
def canonSpecGo : Nat → CanonTask → Except String JsStr
  | 0, _ => .error "canonicalizer fuel exhausted"
  | _ + 1, .one .null => .ok [110, 117, 108, 108]
  | _ + 1, .one (.bool true) => .ok [116, 114, 117, 101]
  | _ + 1, .one (.bool false) => .ok [102, 97, 108, 115, 101]
  | _ + 1, .one (.num (.int n)) => .ok (intCodes n)
  | _ + 1, .one (.num .nan) => .error "Cannot canonicalize non-finite numbers"
  | _ + 1, .one (.num .inf) => .error "Cannot canonicalize non-finite numbers"
  | _ + 1, .one (.num .ninf) => .error "Cannot canonicalize non-finite numbers"
  | _ + 1, .one (.str s) => .ok (jsonEscape s)
  | f + 1, .one (.arr items) => do
    let body ← canonSpecGo f (.many items)
    .ok (91 :: body ++ [93])
  | f + 1, .one (.obj fields) => do
    let body ← canonSpecGo f
      (.fieldsT (List.insertionSort (fun a b : JsStr => a ≤ b) (fields.map Prod.fst)) fields)
    .ok (123 :: body ++ [125])
  | _ + 1, .many [] => .ok []
  | f + 1, .many (v :: vs) => do
    let s ← canonSpecGo f (.one v)
    match vs with
    | [] => .ok s
    | _ :: _ => do
      let rest ← canonSpecGo f (.many vs)
      .ok (s ++ 44 :: rest)
  | _ + 1, .fieldsT [] _ => .ok []
  | f + 1, .fieldsT (k :: ks) fields =>
    match fields.lookup k with
    | some v => do
      let vs ← canonSpecGo f (.one v)
      match ks with
      | [] => .ok (jsonEscape k ++ 58 :: vs)
      | _ :: _ => do
        let rest ← canonSpecGo f (.fieldsT ks fields)
        .ok ((jsonEscape k ++ 58 :: vs) ++ 44 :: rest)
    | none => .error "absent object key"

/-- Code-point-ordered canonicalization, per the specification's words. -/
def canonSpecJson (v : Json) : Except String JsStr := canonSpecGo (jweight v) (.one v)

theorem jweightFields_perm {fields₁ fields₂ : List (JsStr × Json)}
    (hp : List.Perm fields₁ fields₂) : jweightFields fields₁ = jweightFields fields₂ := by
  induction hp with
  | nil => rfl
  | cons x _ ih =>
    obtain ⟨k, v⟩ := x
    simp only [jweightFields, ih]
  | swap x y _ =>
    obtain ⟨k1, v1⟩ := x
    obtain ⟨k2, v2⟩ := y
    simp only [jweightFields]
    omega
  | trans _ _ ih1 ih2 => omega

/-- Two association lists that are permutations of each other with duplicate-free
keys agree on every lookup. -/
theorem lookup_eq_of_perm {fields₁ fields₂ : List (JsStr × Json)}
    (hp : List.Perm fields₁ fields₂) (hnd : (fields₁.map Prod.fst).Nodup) (k : JsStr) :
    fields₁.lookup k = fields₂.lookup k := by
  induction hp with
  | nil => rfl
  | cons x p ih =>
    obtain ⟨a, v⟩ := x
    simp only [List.map_cons, List.nodup_cons] at hnd
    simp only [List.lookup]
    cases hak : k == a with
    | true => rfl
    | false => exact ih hnd.2
  | swap x y l =>
    obtain ⟨a, va⟩ := x
    obtain ⟨b, vb⟩ := y
    simp only [List.map_cons, List.nodup_cons, List.mem_cons, List.mem_map] at hnd
    have hab : b ≠ a := fun h => hnd.1 (Or.inl h)
    simp only [List.lookup]
    cases hkb : k == b with
    | true =>
      have : k = b := eq_of_beq hkb
      subst this
      have : (k == a) = false := beq_eq_false_iff_ne.mpr hab
      simp [this]
    | false => cases hka : k == a with
      | true => rfl
      | false => rfl
  | trans p1 p2 ih1 ih2 =>
    have hnd2 := (List.Perm.nodup_iff (p1.map Prod.fst)).mp hnd
    rw [ih1 hnd, ih2 hnd2]

/-- The `fieldsT` rendering depends on the field table only through lookups. -/
theorem canonGo_fieldsT_congr (fields₁ fields₂ : List (JsStr × Json))
    (hl : ∀ k, fields₁.lookup k = fields₂.lookup k) :
    ∀ (f : Nat) (ks : List JsStr),
      canonGo f (.fieldsT ks fields₁) = canonGo f (.fieldsT ks fields₂) := by
  intro f
  induction f with
  | zero => intro ks; rfl
  | succ f ih =>
    intro ks
    cases ks with
    | nil => rfl
    | cons k ks =>
      simp only [canonGo, hl k]
      cases fields₂.lookup k with
      | none => rfl
      | some v =>
        cases ks with
        | nil => rfl
        | cons k2 ks2 => simp only [ih]

/-- Canonicalization of an object is determined by its key set and lookups:
with the same fuel, permuted duplicate-free field tables render identically. -/
theorem canonGo_obj_congr (fields₁ fields₂ : List (JsStr × Json))
    (hp : List.Perm fields₁ fields₂) (hnd : (fields₁.map Prod.fst).Nodup) (f : Nat) :
    canonGo f (.one (.obj fields₁)) = canonGo f (.one (.obj fields₂)) := by
  cases f with
  | zero => rfl
  | succ f =>
    have hkp : List.Perm (fields₁.map Prod.fst) (fields₂.map Prod.fst) := hp.map Prod.fst
    have hks : List.insertionSort localeLe (fields₁.map Prod.fst) =
        List.insertionSort localeLe (fields₂.map Prod.fst) := by
      exact List.eq_of_perm_of_sorted
        ((List.perm_insertionSort _ _).trans (hkp.trans (List.perm_insertionSort _ _).symm))
        (List.sorted_insertionSort _ _) (List.sorted_insertionSort _ _)
    simp only [canonGo, hks, canonGo_fieldsT_congr fields₁ fields₂ (lookup_eq_of_perm hp hnd)]

/-! ### base64url (`Buffer.toString("base64url")` / `Buffer.from(_, "base64url")`)

Byte lists to code-unit lists, unpadded, per RFC 4648 §5.  Node's decoder
never throws; it processes characters until the first invalid one (modeled by
truncation) and drops a dangling single sextet. -/

/-- Sextet value to base64url alphabet code. -/
def sextetToCode (s : Nat) : Nat :=
  if s < 26 then 65 + s
  else if s < 52 then 97 + (s - 26)
  else if s < 62 then 48 + (s - 52)
  else if s = 62 then 45
  else 95

/-- base64url alphabet code back to its sextet value. -/
def codeToSextet (c : Nat) : Option Nat :=
  if 65 ≤ c ∧ c ≤ 90 then some (c - 65)
  else if 97 ≤ c ∧ c ≤ 122 then some (c - 97 + 26)
  else if 48 ≤ c ∧ c ≤ 57 then some (c - 48 + 52)
  else if c = 45 then some 62
  else if c = 95 then some 63
  else none

theorem codeToSextet_sextetToCode : ∀ s < 64, codeToSextet (sextetToCode s) = some s := by
  decide

def encodeB64 : List Nat → List Nat
  | [] => []
  | [b0] => [sextetToCode (b0 / 4), sextetToCode (b0 % 4 * 16)]
  | [b0, b1] =>
    [sextetToCode (b0 / 4), sextetToCode (b0 % 4 * 16 + b1 / 16), sextetToCode (b1 % 16 * 4)]
  | b0 :: b1 :: b2 :: rest =>
    sextetToCode (b0 / 4) :: sextetToCode (b0 % 4 * 16 + b1 / 16) ::
      sextetToCode (b1 % 16 * 4 + b2 / 64) :: sextetToCode (b2 % 64) :: encodeB64 rest

/-- Decoder front end: collect sextets until the first invalid character. -/
def validSextets : List Nat → List Nat
  | [] => []
  | c :: cs =>
    match codeToSextet c with
    | some s => s :: validSextets cs
    | none => []

/-- Decoder back end: groups of four sextets to three bytes; two or three
trailing sextets yield one or two bytes; a dangling sextet is dropped. -/
def sextetsToBytes : List Nat → List Nat
  | s0 :: s1 :: s2 :: s3 :: rest =>
    (s0 * 4 + s1 / 16) :: (s1 % 16 * 16 + s2 / 4) :: (s2 % 4 * 64 + s3) :: sextetsToBytes rest
  | [s0, s1] => [s0 * 4 + s1 / 16]
  | [s0, s1, s2] => [s0 * 4 + s1 / 16, s1 % 16 * 16 + s2 / 4]
  | _ => []

def decodeB64 (s : List Nat) : List Nat := sextetsToBytes (validSextets s)

theorem validSextets_cons_valid (c : Nat) (cs : List Nat) (s : Nat)
    (h : codeToSextet c = some s) : validSextets (c :: cs) = s :: validSextets cs := by
  simp [validSextets, h]

theorem decodeB64_encodeB64 : ∀ bs : List Nat, (∀ b ∈ bs, b < 256) →
    decodeB64 (encodeB64 bs) = bs
  | [], _ => rfl
  | [b0], h => by
    have hb0 : b0 < 256 := h b0 (by simp)
    unfold decodeB64 encodeB64
    rw [validSextets_cons_valid _ _ _ (codeToSextet_sextetToCode _ (by omega)),
      validSextets_cons_valid _ _ _ (codeToSextet_sextetToCode _ (by omega))]
    simp only [validSextets, sextetsToBytes]
    congr 1
    omega
  | [b0, b1], h => by
    have hb0 : b0 < 256 := h b0 (by simp)
    have hb1 : b1 < 256 := h b1 (by simp)
    unfold decodeB64 encodeB64
    rw [validSextets_cons_valid _ _ _ (codeToSextet_sextetToCode _ (by omega)),
      validSextets_cons_valid _ _ _ (codeToSextet_sextetToCode _ (by omega)),
      validSextets_cons_valid _ _ _ (codeToSextet_sextetToCode _ (by omega))]
    simp only [validSextets, sextetsToBytes]
    congr 1
    · omega
    · congr 1
      omega
  | b0 :: b1 :: b2 :: b3 :: rest, h => by
    have hb0 : b0 < 256 := h b0 (by simp)
    have hb1 : b1 < 256 := h b1 (by simp)
    have hb2 : b2 < 256 := h b2 (by simp)
    have ih := decodeB64_encodeB64 (b3 :: rest) (fun b hb => h b (by simp at hb ⊢; tauto))
    unfold decodeB64 encodeB64
    rw [validSextets_cons_valid _ _ _ (codeToSextet_sextetToCode _ (by omega)),
      validSextets_cons_valid _ _ _ (codeToSextet_sextetToCode _ (by omega)),
      validSextets_cons_valid _ _ _ (codeToSextet_sextetToCode _ (by omega)),
      validSextets_cons_valid _ _ _ (codeToSextet_sextetToCode _ (by omega))]
    simp only [sextetsToBytes]
    unfold decodeB64 at ih
    rw [ih]
    congr 1
    · omega
    · congr 1
      · omega
      · congr 1
        omega
  | [b0, b1, b2], h => by
    have hb0 : b0 < 256 := h b0 (by simp)
    have hb1 : b1 < 256 := h b1 (by simp)
    have hb2 : b2 < 256 := h b2 (by simp)
    unfold decodeB64 encodeB64
    rw [validSextets_cons_valid _ _ _ (codeToSextet_sextetToCode _ (by omega)),
      validSextets_cons_valid _ _ _ (codeToSextet_sextetToCode _ (by omega)),
      validSextets_cons_valid _ _ _ (codeToSextet_sextetToCode _ (by omega)),
      validSextets_cons_valid _ _ _ (codeToSextet_sextetToCode _ (by omega))]
    simp only [validSextets, sextetsToBytes]
    congr 1
    · omega
    · congr 1
      · omega
      · congr 1
        omega

/-! ### Ideal Ed25519 (`crypto.sign` / `crypto.verify` with `null` digest)

PEM key material is either the seed of an ideal keypair — the private half
and the public half of one keypair carry the same seed — or an invalid blob
on which `node:crypto` throws.  A detached signature is modeled as the
seed's self-delimiting digit encoding followed by the exact message bytes,
making signatures bind (seed, message) injectively; signature bytes are all
below 11, so they survive the base64url round trip. -/

inductive PemKey where
  | ed (seed : Nat)
  | invalid (blob : JsStr)
deriving DecidableEq

/-- `crypto.sign(null, data, key)`: throws on non-key material. -/
def cryptoSign (key : PemKey) (data : List Nat) : Except String (List Nat) :=
  match key with
  | .ed seed => .ok (strDigits [seed] ++ data)
  | .invalid _ => .error "error:1E08010C:DECODER routines::unsupported"

/-- `crypto.verify(null, data, key, sig)`: throws on non-key material. -/
def cryptoVerify (key : PemKey) (data sig : List Nat) : Except String Bool :=
  match key with
  | .ed seed => .ok (decide (sig = strDigits [seed] ++ data))
  | .invalid _ => .error "error:1E08010C:DECODER routines::unsupported"

/-- `SignedEnvelope` from `src/config/types.ts`. -/
structure SignedEnvelope where
  alg : JsStr
  kid : JsStr
  payload : JsStr
  sig : JsStr
deriving DecidableEq

/-- The code units of `"Ed25519"`. -/
def edAlgCodes : JsStr := [69, 100, 50, 53, 53, 49, 57]

/-- `signEnvelopeEd25519` from `src/security/signing.ts`: canonicalize, sign
the payload bytes, base64url both.  Neither the canonicalizer's throw nor
`crypto.sign`'s is caught here. -/
def signEnvelopeEd25519 (payload : Json) (privateKeyPem : PemKey) (kid : JsStr) :
    Except String SignedEnvelope := do
  let payloadBytes ← canonicalizeJson payload
  let signature ← cryptoSign privateKeyPem payloadBytes
  .ok ⟨edAlgCodes, kid, encodeB64 payloadBytes, encodeB64 signature⟩

/-- `verifyEnvelopeEd25519` from `src/security/signing.ts`: decode and verify
inside a try/catch, returning `false` on any throw. -/
def verifyEnvelopeEd25519 (envelope : SignedEnvelope) (publicKeyPem : PemKey) : Bool :=
  match cryptoVerify publicKeyPem (decodeB64 envelope.payload) (decodeB64 envelope.sig) with
  | .ok b => b
  | .error _ => false

/-! ### `JSON.parse`, on the canonical subset

A fuel-indexed recursive-descent parser for the JSON grammar as emitted by
the canonicalizer (no insignificant whitespace, integral numbers, `\u00XX`
and short escapes).  This models the `JSON.parse` calls of
`parseEnvelopePayload` and `verifyInviteToken` on the data those functions
are fed, which is always canonicalizer output. -/

def hexDigitVal (c : Nat) : Option Nat :=
  if 48 ≤ c ∧ c ≤ 57 then some (c - 48)
  else if 97 ≤ c ∧ c ≤ 102 then some (c - 87)
  else if 65 ≤ c ∧ c ≤ 70 then some (c - 55)
  else none

def jparseString : List Nat → Except String (JsStr × List Nat)
  | [] => .error "Unterminated string in JSON"
  | 34 :: rest => .ok ([], rest)
  | 92 :: 117 :: h1 :: h2 :: h3 :: h4 :: rest =>
    match hexDigitVal h1, hexDigitVal h2, hexDigitVal h3, hexDigitVal h4 with
    | some d1, some d2, some d3, some d4 => do
      let (s, rest') ← jparseString rest
      .ok ((d1 * 4096 + d2 * 256 + d3 * 16 + d4) :: s, rest')
    | _, _, _, _ => .error "Bad Unicode escape in JSON"
  | 92 :: c :: rest => do
    let (s, rest') ← jparseString rest
    match c with
    | 34 => .ok (34 :: s, rest')
    | 92 => .ok (92 :: s, rest')
    | 47 => .ok (47 :: s, rest')
    | 98 => .ok (8 :: s, rest')
    | 102 => .ok (12 :: s, rest')
    | 110 => .ok (10 :: s, rest')
    | 114 => .ok (13 :: s, rest')
    | 116 => .ok (9 :: s, rest')
    | _ => .error "Bad escape in JSON"
  | c :: rest => do
    let (s, rest') ← jparseString rest
    .ok (c :: s, rest')

def jparseNat (cs : List Nat) : Except String (Nat × List Nat) :=
  let ds := cs.takeWhile (fun c => decide (48 ≤ c ∧ c ≤ 57))
  let rest := cs.dropWhile (fun c => decide (48 ≤ c ∧ c ≤ 57))
  if ds = [] then .error "Invalid number in JSON"
  else .ok (ds.foldl (fun a d => a * 10 + (d - 48)) 0, rest)

mutual

def jparse : Nat → List Nat → Except String (Json × List Nat)
  | 0, _ => .error "JSON parser fuel exhausted"
  | f + 1, cs =>
    match cs with
    | 110 :: 117 :: 108 :: 108 :: rest => .ok (.null, rest)
    | 116 :: 114 :: 117 :: 101 :: rest => .ok (.bool true, rest)
    | 102 :: 97 :: 108 :: 115 :: 101 :: rest => .ok (.bool false, rest)
    | 34 :: rest => do
      let (s, rest') ← jparseString rest
      .ok (.str s, rest')
    | 91 :: 93 :: rest => .ok (.arr [], rest)
    | 91 :: rest => do
      let (items, rest') ← jparseElems f rest
      .ok (.arr items, rest')
    | 123 :: 125 :: rest => .ok (.obj [], rest)
    | 123 :: rest => do
      let (fields, rest') ← jparseMembers f rest
      .ok (.obj fields, rest')
    | 45 :: rest => do
      let (n, rest') ← jparseNat rest
      .ok (.num (.int (-(n : Int))), rest')
    | c :: rest =>
      if 48 ≤ c ∧ c ≤ 57 then do
        let (n, rest') ← jparseNat (c :: rest)
        .ok (.num (.int (n : Int)), rest')
      else .error "Unexpected token in JSON"
    | [] => .error "Unexpected end of JSON input"

def jparseElems : Nat → List Nat → Except String (List Json × List Nat)
  | 0, _ => .error "JSON parser fuel exhausted"
  | f + 1, cs => do
    let (v, rest) ← jparse f cs
    match rest with
    | 44 :: rest' => do
      let (vs, rest'') ← jparseElems f rest'
      .ok (v :: vs, rest'')
    | 93 :: rest' => .ok ([v], rest')
    | _ => .error "Expected comma or close bracket in JSON array"

def jparseMembers : Nat → List Nat → Except String (List (JsStr × Json) × List Nat)
  | 0, _ => .error "JSON parser fuel exhausted"
  | f + 1, cs =>
    match cs with
    | 34 :: rest => do
      let (k, rest1) ← jparseString rest
      match rest1 with
      | 58 :: rest2 => do
        let (v, rest3) ← jparse f rest2
        match rest3 with
        | 44 :: rest4 => do
          let (fs, rest5) ← jparseMembers f rest4
          .ok ((k, v) :: fs, rest5)
        | 125 :: rest4 => .ok ([(k, v)], rest4)
        | _ => .error "Expected comma or close brace in JSON object"
      | _ => .error "Expected colon in JSON object"
    | _ => .error "Expected string key in JSON object"

end

/-- `JSON.parse`: parse and require the whole input to be consumed. -/
def jsonParse (bytes : List Nat) : Except String Json :=
  match jparse (2 * bytes.length + 4) bytes with
  | .ok (v, []) => .ok v
  | .ok (_, _ :: _) => .error "Unexpected characters after JSON value"
  | .error e => .error e

/-- `parseEnvelopePayload` from `src/security/signing.ts`: base64url-decode
the payload and `JSON.parse` it (uncaught here; callers catch). -/
def parseEnvelopePayload (envelope : SignedEnvelope) : Except String Json :=
  jsonParse (decodeB64 envelope.payload)

/-! ### `src/bootstrap/invite.ts`: invite token codec -/

/-- `InviteTokenPayload` from `src/config/loader.ts` (`v` is always `1` once
the guard has passed, so it is not stored; the numeric fields keep their JS
number semantics via `JNum`; `seedHints` is only checked with
`Array.isArray`, so its elements stay raw JSON). -/
structure InviteTokenPayload where
  mesh : JsStr
  agent : JsStr
  nodePubKey : JsStr
  jti : JsStr
  iat : JNum
  nbf : JNum
  exp : JNum
  minManifestVersion : Option JNum
  seedHints : Option (List Json)

def vKey : JsStr := [118]
def meshKey : JsStr := [109, 101, 115, 104]
def agentKey : JsStr := [97, 103, 101, 110, 116]
def nodePubKeyKey : JsStr := [110, 111, 100, 101, 80, 117, 98, 75, 101, 121]
def jtiKey : JsStr := [106, 116, 105]
def iatKey : JsStr := [105, 97, 116]
def nbfKey : JsStr := [110, 98, 102]
def expKey : JsStr := [101, 120, 112]
def minManifestVersionKey : JsStr :=
  [109, 105, 110, 77, 97, 110, 105, 102, 101, 115, 116, 86, 101, 114, 115, 105, 111, 110]
def seedHintsKey : JsStr := [115, 101, 101, 100, 72, 105, 110, 116, 115]
def versionKey : JsStr := [118, 101, 114, 115, 105, 111, 110]

/-- The `isInviteTokenPayload` type guard from `src/bootstrap/invite.ts`,
combined with the field accesses that follow it:
`v === 1`, strings for mesh/agent/nodePubKey/jti, numbers for iat/nbf/exp,
`minManifestVersion` absent or a number, `seedHints` absent or an array. -/
def toInvitePayload (j : Json) : Option InviteTokenPayload :=
  match j with
  | .obj fields =>
    match fields.lookup vKey with
    | some (.num (.int 1)) =>
      match fields.lookup meshKey, fields.lookup agentKey,
          fields.lookup nodePubKeyKey, fields.lookup jtiKey with
      | some (.str mesh), some (.str agent), some (.str npk), some (.str jti) =>
        match fields.lookup iatKey, fields.lookup nbfKey, fields.lookup expKey with
        | some (.num iat), some (.num nbf), some (.num exp) =>
          match fields.lookup minManifestVersionKey with
          | some (.num mv) =>
            match fields.lookup seedHintsKey with
            | some (.arr hs) => some ⟨mesh, agent, npk, jti, iat, nbf, exp, some mv, some hs⟩
            | none => some ⟨mesh, agent, npk, jti, iat, nbf, exp, some mv, none⟩
            | some _ => none
          | none =>
            match fields.lookup seedHintsKey with
            | some (.arr hs) => some ⟨mesh, agent, npk, jti, iat, nbf, exp, none, some hs⟩
            | none => some ⟨mesh, agent, npk, jti, iat, nbf, exp, none, none⟩
            | some _ => none
          | some _ => none
        | _, _, _ => none
      | _, _, _, _ => none
    | _ => none
  | _ => none

/-- `InviteTokenVerification` from `src/bootstrap/invite.ts`. -/
structure InviteTokenVerification where
  ok : Bool
  payload : Option InviteTokenPayload
  error : Option String

/-- `createInviteToken`: canonical payload bytes and a detached signature over
them, base64url-encoded and joined with `"."` (code `46`).  Takes the payload
as the JSON object the source serializes. -/
def createInviteToken (payload : Json) (rootPrivateKeyPem : PemKey) :
    Except String (List Nat) := do
  let payloadBytes ← canonicalizeJson payload
  let signature ← cryptoSign rootPrivateKeyPem payloadBytes
  .ok (encodeB64 payloadBytes ++ 46 :: encodeB64 signature)

/-- `token.split(".")` (code `46`). -/
def splitDot : List Nat → List (List Nat)
  | [] => [[]]
  | c :: cs =>
    if c = 46 then [] :: splitDot cs
    else
      match splitDot cs with
      | [] => [[c]]
      | r :: rs => (c :: r) :: rs

/-- `verifyInviteToken` from `src/bootstrap/invite.ts`.  Exactly two
non-empty dot-separated parts; base64url-decode (total in node); verify the
signature, catching a key-format throw; parse and shape-check the payload.
Each failure is a distinguishable typed error, never a throw. -/
def verifyInviteToken (token : List Nat) (rootPublicKeyPem : PemKey) :
    InviteTokenVerification :=
  match splitDot token with
  | [payloadPart, sigPart] =>
    if payloadPart = [] ∨ sigPart = [] then ⟨false, none, some "Malformed token"⟩
    else
      let payloadBytes := decodeB64 payloadPart
      let signature := decodeB64 sigPart
      match cryptoVerify rootPublicKeyPem payloadBytes signature with
      | .error _ => ⟨false, none, some "Invalid root public key format"⟩
      | .ok false => ⟨false, none, some "Invalid token signature"⟩
      | .ok true =>
        match jsonParse payloadBytes with
        | .error _ => ⟨false, none, some "Malformed token payload JSON"⟩
        | .ok payloadJson =>
          match toInvitePayload payloadJson with
          | none => ⟨false, none, some "Invalid token payload"⟩
          | some payload => ⟨true, some payload, none⟩
  | _ => ⟨false, none, some "Malformed token"⟩

/-! ### The bootstrap join route (`POST /mesh/bootstrap/join`) -/

/-- JS `<` on numbers (`NaN` comparisons are false). -/
def jsLtNum : JNum → JNum → Bool
  | .int a, .int b => decide (a < b)
  | .nan, _ => false
  | _, .nan => false
  | .int _, .inf => true
  | .int _, .ninf => false
  | .inf, _ => false
  | .ninf, _ => true

/-- `manifestPayload.version`, as the route reads it off the parsed JSON
(absent or non-numeric gives `undefined`, whose comparisons are false). -/
def versionOf (j : Json) : Option JNum :=
  match j with
  | .obj fields =>
    match fields.lookup versionKey with
    | some (.num n) => some n
    | _ => none
  | _ => none

/-- `undefined < n` is false; otherwise numeric. -/
def jsUndefLt (a : Option JNum) (b : JNum) : Bool :=
  match a with
  | some a => jsLtNum a b
  | none => false

structure BootstrapJoinRequest where
  token : Option (List Nat)
  nodePubKey : Option JsStr

/-- The bootstrap join route's observable outcome: an HTTP error status with
its message, or the 200 body's interesting fields (the `sync` block is
constant). -/
inductive JoinResult where
  | failure (status : Nat) (error : String)
  | success (mesh : JsStr) (agent : JsStr) (now : Int) (manifest : SignedEnvelope)

/-- The `POST /bootstrap/join` handler from `src/server/routes.ts`
(`createRoutes`), with the ambient effects as explicit arguments: the results
of `loadRootPublicKey` and `loadManifest` (both throw on missing files,
modeled by `Except`) and `Date.now()`. -/
def bootstrapJoin (meshName : JsStr) (loadRootPublicKeyResult : Except String PemKey)
    (loadManifestResult : Except String SignedEnvelope) (now : Int)
    (body : BootstrapJoinRequest) : JoinResult :=
  match body.token, body.nodePubKey with
  | some token, some nodePubKey =>
    match loadRootPublicKeyResult with
    | .error e => .failure 503 e
    | .ok rootPublicKey =>
      let verified := verifyInviteToken token rootPublicKey
      match verified.ok, verified.payload with
      | true, some payload =>
        if payload.mesh ≠ meshName then .failure 403 "Invite mesh mismatch"
        else if payload.nodePubKey ≠ nodePubKey then
          .failure 403 "Invite not valid for this node key"
        else if jsLtNum (.int (now + 60000)) payload.nbf then
          .failure 403 "Invite not yet valid"
        else if jsLtNum payload.exp (.int (now - 60000)) then
          .failure 403 "Invite expired"
        else
          match loadManifestResult with
          | .error e => .failure 503 e
          | .ok manifest =>
            match parseEnvelopePayload manifest with
            | .error e => .failure 503 e
            | .ok manifestJson =>
              match payload.minManifestVersion with
              | some mv =>
                if jsUndefLt (versionOf manifestJson) mv then
                  .failure 412 "Peer manifest version is too old"
                else .success meshName payload.agent now manifest
              | none => .success meshName payload.agent now manifest
      | _, _ => .failure 401 ((verifyInviteToken token rootPublicKey).error.getD
          "Invalid invite token")
  | _, _ => .failure 400 "Missing token or nodePubKey"

/-! ### `src/server/auth.ts` and the message routes of `src/server/routes.ts`

One authenticated POST to `/mesh/msg`, `/mesh/ask` or `/mesh/response` runs
the auth middleware and then the route handler.  The middleware's ambient
inputs (`Date.now()`, the bearer token, `content-length`) are explicit
arguments; its per-instance nonce tracker and the route's queue are the
server state. -/

/-- `MeshMessage` from `src/queue/message-queue.ts` (`from` and `to` are Lean
keywords, hence `fromAgent`/`toAgent`; `type` stays the raw wire string
because it is fed into the MAC input). -/
structure MeshMessage where
  id : JsStr
  fromAgent : JsStr
  toAgent : JsStr
  type : JsStr
  payload : JsStr
  replyTo : Option JsStr
  timestamp : Int
  nonce : JsStr
  hmac : JsStr
deriving DecidableEq

/-- `isTimestampValid` from `src/security/signing.ts`. -/
def isTimestampValid (now timestamp windowSeconds : Int) : Bool :=
  decide (|now - timestamp| ≤ windowSeconds * 1000)

/-- The three authenticated POST endpoints. -/
inductive Endpoint where
  | msgE
  | askE
  | respE
deriving DecidableEq

structure ServerState where
  nonces : NonceState
  queue : MessageQueue
deriving DecidableEq

/-- One request as the server sees it. -/
structure MeshRequest where
  now : Int
  endpoint : Endpoint
  authToken : Option JsStr
  contentLength : Int
  msg : MeshMessage
deriving DecidableEq

/-- The middleware of `createAuthMiddleware`: bearer check, size check,
required fields (JS falsiness: empty strings and the number `0` count as
missing), timestamp window, nonce check (which mutates the tracker *before*
MAC verification), then HMAC verification — whose `timingSafeEqual` may
throw, which Express surfaces as a 500.  Returns the error response, if any,
and the updated nonce state. -/
def authCheck (meshKeyStr : JsStr) (replayWindowSeconds maxMessageSizeBytes : Int)
    (req : MeshRequest) (nonces : NonceState) : Option (Nat × String) × NonceState :=
  match req.authToken with
  | none => (some (401, "Missing or invalid authorization"), nonces)
  | some token =>
    if token ≠ meshKeyStr then (some (401, "Invalid mesh key"), nonces)
    else if req.contentLength > maxMessageSizeBytes then (some (413, "Message too large"), nonces)
    else if req.msg.id = [] ∨ req.msg.nonce = [] ∨ req.msg.timestamp = 0 ∨ req.msg.hmac = [] then
      (some (400, "Invalid message format"), nonces)
    else if ¬isTimestampValid req.now req.msg.timestamp replayWindowSeconds then
      (some (400, "Message timestamp expired"), nonces)
    else
      let checked := NonceTracker.check (replayWindowSeconds * 1000) req.now
        req.msg.nonce req.msg.timestamp nonces
      if checked.1 = false then (some (400, "Duplicate nonce (replay detected)"), checked.2)
      else
        match verifyHmac meshKeyStr
          ⟨req.msg.id, req.msg.type, req.msg.payload, req.msg.timestamp, req.msg.nonce⟩
          req.msg.hmac with
        | .ok true => (none, checked.2)
        | .ok false => (some (400, "HMAC verification failed"), checked.2)
        | .error e => (some (500, e), checked.2)

/-- The route handlers for `/msg`, `/ask` and `/response` from
`createRoutes`, run after a passing auth middleware. -/
def routeHandle (agentName : JsStr) (req : MeshRequest) (q : MessageQueue) :
    Nat × MessageQueue :=
  match req.endpoint with
  | .msgE =>
    if req.msg.toAgent ≠ agentName then (404, q)
    else (200, q.enqueue ⟨req.msg.id, req.msg.fromAgent, req.msg.payload,
      req.msg.timestamp, .message, none⟩)
  | .askE =>
    if req.msg.toAgent ≠ agentName then (404, q)
    else (200, q.enqueue ⟨req.msg.id, req.msg.fromAgent, req.msg.payload,
      req.msg.timestamp, .ask, none⟩)
  | .respE =>
    match req.msg.replyTo with
    | none => (400, q)
    | some r => (200, (q.resolveAsk r).2)

/-- One authenticated POST: middleware, then (on pass) the route handler. -/
def handleMeshPost (meshKeyStr agentName : JsStr)
    (replayWindowSeconds maxMessageSizeBytes : Int) (req : MeshRequest)
    (st : ServerState) : Nat × ServerState :=
  match authCheck meshKeyStr replayWindowSeconds maxMessageSizeBytes req st.nonces with
  | (some (status, _), nonces') => (status, ⟨nonces', st.queue⟩)
  | (none, nonces') =>
    let handled := routeHandle agentName req st.queue
    (handled.1, ⟨nonces', handled.2⟩)

/-- A run of the server over a request sequence. -/
def serverRun (meshKeyStr agentName : JsStr)
    (replayWindowSeconds maxMessageSizeBytes : Int) :
    List MeshRequest → ServerState → ServerState
  | [], st => st
  | req :: reqs, st =>
    serverRun meshKeyStr agentName replayWindowSeconds maxMessageSizeBytes reqs
      (handleMeshPost meshKeyStr agentName replayWindowSeconds maxMessageSizeBytes req st).2

/-! ## Claims -/

/-- C1.  Amended: for every shared secret `k` and signable message `m`,
`verifyHmac k m (signMessage k m)` returns true, and a MAC signed under a
different secret never verifies; but a message differing from `m` in a field
fails to verify only when neither message's fields contain the delimiter
`"|"` — the unescaped delimited concatenation of `signMessage` lets messages
that reallocate a `"|"` across adjacent fields share one MAC (see the
counterexample). -/
theorem c1_mac_sign_verify :
    (∀ (k : JsStr) (m : SignableMessage), verifyHmac k m (signMessage k m) = .ok true) ∧
    (∀ (k k' : JsStr) (m : SignableMessage), k' ≠ k →
      verifyHmac k' m (signMessage k m) = .ok false) ∧
    (∀ (k : JsStr) (m m' : SignableMessage), m.pipeFree → m'.pipeFree → m' ≠ m →
      verifyHmac k m' (signMessage k m) = .ok false) := by
  refine ⟨verifyHmac_signMessage, verifyHmac_wrong_key, ?_⟩
  intro k m m' hm hm' hne
  exact verifyHmac_wrong_message k m m' hm hm' hne

/-- C1, counterexample to the claim as stated: the messages
`(id "a|b", type "c", …)` and `(id "a", type "b|c", …)` differ in two fields
yet the MAC of the first verifies for the second, because both have the
signing input `"a|b|c|p|1|n"`. -/
theorem c1_counterexample :
    verifyHmac [107] ⟨[97], [98, 124, 99], [112], 1, [110]⟩
      (signMessage [107] ⟨[97, 124, 98], [99], [112], 1, [110]⟩) = .ok true ∧
    (⟨[97], [98, 124, 99], [112], 1, [110]⟩ : SignableMessage) ≠
      ⟨[97, 124, 98], [99], [112], 1, [110]⟩ := by
  exact ⟨rfl, by decide⟩

/-- C1, witness: the amended theorem applied at concrete inputs. -/
theorem c1_witness :
    verifyHmac [107] ⟨[109, 49], [116], [112], 7, [110]⟩
      (signMessage [107] ⟨[109, 49], [116], [112], 7, [110]⟩) = .ok true ∧
    verifyHmac [108] ⟨[109, 49], [116], [112], 7, [110]⟩
      (signMessage [107] ⟨[109, 49], [116], [112], 7, [110]⟩) = .ok false ∧
    verifyHmac [107] ⟨[109, 50], [116], [112], 7, [110]⟩
      (signMessage [107] ⟨[109, 49], [116], [112], 7, [110]⟩) = .ok false :=
  ⟨c1_mac_sign_verify.1 [107] ⟨[109, 49], [116], [112], 7, [110]⟩,
   c1_mac_sign_verify.2.1 [107] [108] ⟨[109, 49], [116], [112], 7, [110]⟩ (by decide),
   c1_mac_sign_verify.2.2 [107] ⟨[109, 49], [116], [112], 7, [110]⟩
     ⟨[109, 50], [116], [112], 7, [110]⟩ (by decide) (by decide) (by decide)⟩

/-- C2.  `NonceTracker.check`: a nonce whose (post-prune) entry survives is
rejected with the state merely pruned; an unrecorded (or fully pruned) nonce
is recorded and accepted; every check prunes all surviving entries to the
window except the newly added one; and across any sequence of checks whose
clocks do not exceed the final call's clock, a nonce accepted once is
accepted again only after its recorded observation timestamp has left the
replay window. -/
theorem c2_nonce_tracker :
    (∀ (w now : Int) (n : JsStr) (ts ts0 : Int) (st : NonceState),
      (n, ts0) ∈ st → ¬(ts0 < now - w) →
      NonceTracker.check w now n ts st = (false, NonceTracker.prune w now st)) ∧
    (∀ (w now : Int) (n : JsStr) (ts : Int) (st : NonceState),
      (∀ ts0, (n, ts0) ∈ st → ts0 < now - w) →
      NonceTracker.check w now n ts st =
        (true, NonceTracker.prune w now st ++ [(n, ts)])) ∧
    (∀ (w now : Int) (n : JsStr) (ts : Int) (st : NonceState) (e : JsStr × Int),
      e ∈ (NonceTracker.check w now n ts st).2 →
      (e ∈ st ∧ ¬(e.2 < now - w)) ∨ e = (n, ts)) ∧
    (∀ (w now1 now2 : Int) (n : JsStr) (ts1 ts2 : Int) (st : NonceState)
      (ops : List (Int × JsStr × Int)),
      (NonceTracker.check w now1 n ts1 st).1 = true →
      (∀ op ∈ ops, op.1 ≤ now2) →
      (NonceTracker.check w now2 n ts2
        (NonceTracker.runChecks w ops (NonceTracker.check w now1 n ts1 st).2)).1 = true →
      ts1 < now2 - w) :=
  ⟨NonceTracker.check_rejects_recorded, NonceTracker.check_accepts_unrecorded,
   NonceTracker.check_prunes, NonceTracker.no_double_accept⟩

/-- C2, witness: the four conjuncts at concrete inputs (window `10`): a
recorded fresh nonce is rejected; an unseen nonce is recorded; the pruned
state keeps only in-window entries plus the new one; and a nonce re-accepted
at time `1` must have been observed before `1 - 10`. -/
theorem c2_witness :
    NonceTracker.check 10 10 [1] 20 [([1], 5)] = (false, [([1], 5)]) ∧
    NonceTracker.check 10 10 [2] 20 [([1], 5)] =
      (true, [([1], 5), ([2], 20)]) ∧
    ((([1], (5 : Int)) ∈ [(([1] : JsStr), (5 : Int))] ∧
      ¬((([1], (5 : Int)) : JsStr × Int).2 < 10 - 10)) ∨
      (([1], (5 : Int)) : JsStr × Int) = ([2], 20)) ∧
    ((NonceTracker.check 10 0 [5] (-20) []).1 = true ∧
      (NonceTracker.check 10 1 [5] 1
        (NonceTracker.runChecks 10 [] (NonceTracker.check 10 0 [5] (-20) []).2)).1 = true ∧
      (-20 : Int) < 1 - 10) := by
  refine ⟨?_, ?_, ?_, rfl, rfl, ?_⟩
  · exact c2_nonce_tracker.1 10 10 [1] 20 5 [([1], 5)] (by decide) (by decide)
  · exact c2_nonce_tracker.2.1 10 10 [2] 20 [([1], 5)] (by intro ts0 hmem; simp at hmem)
  · exact c2_nonce_tracker.2.2.1 10 10 [2] 20 [([1], 5)] ([1], 5) (by decide)
  · exact c2_nonce_tracker.2.2.2 10 0 1 [5] (-20) 1 [] [] rfl (by simp) rfl

/-- C3.  Amended: `verifyHmac` has no try/catch around
`crypto.timingSafeEqual`, so a candidate MAC whose decoded byte length
differs from the expected digest's does *not* return false — the RangeError
propagates out of the verification; only equal-length decodes produce a
Boolean verdict. -/
theorem c3_length_mismatch_throws :
    (∀ (k : JsStr) (m : SignableMessage) (mac : JsStr),
      (hexDecode mac).length ≠ (hexDecode (signMessage k m)).length →
      verifyHmac k m mac =
        .error "RangeError: Input buffers must have the same byte length") ∧
    (∀ (k : JsStr) (m : SignableMessage) (mac : JsStr),
      (hexDecode mac).length = (hexDecode (signMessage k m)).length →
      verifyHmac k m mac = .ok true ∨ verifyHmac k m mac = .ok false) := by
  constructor
  · intro k m mac h
    simp only [verifyHmac, timingSafeEqual]
    rw [if_neg (fun hh => h hh.symm)]
  · intro k m mac h
    simp only [verifyHmac, timingSafeEqual]
    rw [if_pos h.symm]
    rcases Decidable.em (hexDecode (signMessage k m) = hexDecode mac) with he | he
    · left; simp [he]
    · right; simp [he]

/-- C3, counterexample to the claim as stated: the empty candidate MAC
decodes to zero bytes, and `verifyHmac` propagates the RangeError instead of
returning false. -/
theorem c3_counterexample :
    verifyHmac [107] ⟨[109], [116], [112], 7, [110]⟩ [] =
      .error "RangeError: Input buffers must have the same byte length" := rfl

/-- C3, witness: the amended theorem applied at a concrete length-mismatched
and a concrete equal-length input. -/
theorem c3_witness :
    verifyHmac [107] ⟨[109], [116], [112], 7, [110]⟩ [48, 44, 48] =
      .error "RangeError: Input buffers must have the same byte length" ∧
    (verifyHmac [107] ⟨[109], [116], [112], 7, [110]⟩
        (signMessage [108] ⟨[109], [116], [112], 7, [110]⟩) = .ok true ∨
      verifyHmac [107] ⟨[109], [116], [112], 7, [110]⟩
        (signMessage [108] ⟨[109], [116], [112], 7, [110]⟩) = .ok false) :=
  ⟨c3_length_mismatch_throws.1 [107] ⟨[109], [116], [112], 7, [110]⟩ [48, 44, 48] (by decide),
   c3_length_mismatch_throws.2 [107] ⟨[109], [116], [112], 7, [110]⟩
     (signMessage [108] ⟨[109], [116], [112], 7, [110]⟩) (by decide)⟩

theorem foldl_enqueue_queue : ∀ (ms : List IncomingMessage) (q : MessageQueue),
    (ms.foldl MessageQueue.enqueue q).queue = q.queue ++ ms := by
  intro ms
  induction ms with
  | nil => intro q; simp
  | cons m ms ih =>
    intro q
    simp only [List.foldl_cons, ih, MessageQueue.enqueue, List.append_assoc,
      List.singleton_append]

/-- C7.  The ask registry settles each registered id exactly once:
`resolveAsk` reports success exactly when a pending entry exists; over any
event sequence that registers an id once and ends in `destroy`, exactly one
outcome (resolution, timeout rejection, or destroy rejection) is recorded for
that id and its pending entry is gone; and along any run registering an id at
most once, settled outcomes plus live entries never exceed one — so every
exit path removes the entry and no second settlement can occur. -/
theorem c7_ask_registry :
    (∀ (q : MessageQueue) (i : JsStr), (q.resolveAsk i).1 = true ↔ i ∈ q.pending) ∧
    (∀ (i : JsStr) (ops : List MessageQueue.QueueEvent),
      ops.count (MessageQueue.QueueEvent.registerE i) = 1 →
      ops.getLast? = some MessageQueue.QueueEvent.destroyE →
      MessageQueue.outcomeCount (MessageQueue.empty.runEvents ops) i = 1 ∧
        (MessageQueue.empty.runEvents ops).pending.count i = 0) ∧
    (∀ (i : JsStr) (ops : List MessageQueue.QueueEvent),
      ops.count (MessageQueue.QueueEvent.registerE i) ≤ 1 →
      MessageQueue.outcomeCount (MessageQueue.empty.runEvents ops) i +
        (MessageQueue.empty.runEvents ops).pending.count i ≤ 1) := by
  refine ⟨?_, ?_, ?_⟩
  · intro q i
    by_cases h : i ∈ q.pending <;> simp [MessageQueue.resolveAsk, h]
  · intro i ops hreg hlast
    have hc := MessageQueue.runEvents_count i ops MessageQueue.empty
    have hp := MessageQueue.runEvents_destroy_pending ops MessageQueue.empty hlast
    have h0 : MessageQueue.outcomeCount MessageQueue.empty i = 0 := rfl
    have h0' : List.count i MessageQueue.empty.pending = 0 := rfl
    rw [hp, h0, h0', hreg, List.count_nil] at hc
    rw [hp, List.count_nil]
    exact ⟨by omega, rfl⟩
  · intro i ops hreg
    have hc := MessageQueue.runEvents_count i ops MessageQueue.empty
    have h0 : MessageQueue.outcomeCount MessageQueue.empty i = 0 := rfl
    have h0' : List.count i MessageQueue.empty.pending = 0 := rfl
    rw [h0, h0'] at hc
    omega

/-- C7, witness: registering `"A"`, resolving it, then destroying the queue
records exactly one outcome for it and leaves no pending entry; and
`resolveAsk` reports success on a queue whose table holds `"A"`. -/
theorem c7_witness :
    (MessageQueue.outcomeCount (MessageQueue.empty.runEvents
      [.registerE [65], .resolveE [65], .destroyE]) [65] = 1 ∧
    (MessageQueue.empty.runEvents
      [.registerE [65], .resolveE [65], .destroyE]).pending.count [65] = 0) ∧
    ((MessageQueue.mk [] [[65]] []).resolveAsk [65]).1 = true :=
  ⟨c7_ask_registry.2.1 [65] [.registerE [65], .resolveE [65], .destroyE]
      (by decide) (by decide),
   (c7_ask_registry.1 (MessageQueue.mk [] [[65]] []) [65]).mpr (by decide)⟩

/-- C8.  Queue FIFO: after enqueuing `ms` in order onto any prior queue
state, `drain` returns the prior contents followed by `ms` in enqueue order
(so for enqueues `e₁` strictly before `e₂`, `e₁`'s message is drained before
`e₂`'s), and afterwards the queue is empty: `length` is 0 and `peek` returns
the empty sequence. -/
theorem c8_queue_fifo (q : MessageQueue) (ms : List IncomingMessage) :
    ((ms.foldl MessageQueue.enqueue q).drain).1 = q.queue ++ ms ∧
    ((ms.foldl MessageQueue.enqueue q).drain).1.drop q.queue.length = ms ∧
    ((ms.foldl MessageQueue.enqueue q).drain).2.queue = [] ∧
    ((ms.foldl MessageQueue.enqueue q).drain).2.peek = [] ∧
    ((ms.foldl MessageQueue.enqueue q).drain).2.length = 0 := by
  have hq := foldl_enqueue_queue ms q
  refine ⟨?_, ?_, rfl, rfl, rfl⟩
  · simpa [MessageQueue.drain] using hq
  · simp [MessageQueue.drain, hq, List.drop_left]

/-- C10.  The two state components of `MessageQueue` are frame-disjoint:
`enqueue` and `drain` leave the pending-ask table (and the settlement log)
untouched, `registerAsk`/`resolveAsk`/`fireTimeout`/`destroy` leave the
message list untouched (`peek` reads without mutating by construction), and
the `/mesh/response` route handler only consumes the reply through
`resolveAsk` — it never adds it to the message queue. -/
theorem c10_frame_disjoint :
    (∀ (q : MessageQueue) (m : IncomingMessage),
      (q.enqueue m).pending = q.pending ∧ (q.enqueue m).outcomes = q.outcomes) ∧
    (∀ q : MessageQueue,
      (q.drain).2.pending = q.pending ∧ (q.drain).2.outcomes = q.outcomes) ∧
    (∀ (q : MessageQueue) (i : JsStr), (q.registerAsk i).queue = q.queue) ∧
    (∀ (q : MessageQueue) (i : JsStr), (q.resolveAsk i).2.queue = q.queue) ∧
    (∀ (q : MessageQueue) (i : JsStr), (q.fireTimeout i).queue = q.queue) ∧
    (∀ q : MessageQueue, q.destroy.queue = q.queue) ∧
    (∀ (agent : JsStr) (req : MeshRequest) (qq : MessageQueue),
      req.endpoint = .respE → (routeHandle agent req qq).2.queue = qq.queue) := by
  refine ⟨fun q m => ⟨rfl, rfl⟩, fun q => ⟨rfl, rfl⟩, fun q i => rfl, ?_, ?_, fun q => rfl, ?_⟩
  · intro q i
    by_cases h : i ∈ q.pending <;> simp [MessageQueue.resolveAsk, h]
  · intro q i
    by_cases h : i ∈ q.pending <;> simp [MessageQueue.fireTimeout, h]
  · intro agent req qq hend
    unfold routeHandle
    rw [hend]
    cases req.msg.replyTo with
    | none => rfl
    | some r =>
      by_cases h : r ∈ qq.pending <;> simp [MessageQueue.resolveAsk, h]

/-- C4.  Amended: `canonicalizeJson` emits object keys sorted by the modeled
`localeCompare` collation (case-insensitive primary, lowercase-first
tiebreak) — *not* by code-point ordering; structurally equal objects
(permuted duplicate-free field tables) still yield byte-equal output, and
canonicalization fails on every non-finite number. -/
theorem c4_canonicalize_deterministic :
    (∀ (fields₁ fields₂ : List (JsStr × Json)), List.Perm fields₁ fields₂ →
      (fields₁.map Prod.fst).Nodup →
      canonicalizeJson (.obj fields₁) = canonicalizeJson (.obj fields₂)) ∧
    (∀ (f : Nat) (fields₁ fields₂ : List (JsStr × Json)), List.Perm fields₁ fields₂ →
      (fields₁.map Prod.fst).Nodup →
      canonGo f (.one (.obj fields₁)) = canonGo f (.one (.obj fields₂))) ∧
    (∀ n : JNum, n.isFinite = false →
      canonicalizeJson (.num n) = .error "Cannot canonicalize non-finite numbers") := by
  refine ⟨?_, ?_, ?_⟩
  · intro fields₁ fields₂ hp hnd
    unfold canonicalizeJson canonicalizeValue
    have hw : jweight (Json.obj fields₁) = jweight (Json.obj fields₂) := by
      simp only [jweight]
      rw [jweightFields_perm hp]
    rw [hw]
    exact canonGo_obj_congr fields₁ fields₂ hp hnd _
  · intro f fields₁ fields₂ hp hnd
    exact canonGo_obj_congr fields₁ fields₂ hp hnd f
  · intro n h
    cases n with
    | int n => exact absurd h (by simp [JNum.isFinite])
    | nan => rfl
    | inf => rfl
    | ninf => rfl

/-- C4, counterexample to the claim as stated: on `{"B": 1, "a": 2}` the
source emits `{"a":2,"B":1}` (`localeCompare` puts `"a"` before `"B"`),
whereas code-point ordering (the spec-worded `canonSpecJson`) emits
`{"B":1,"a":2}`; the two byte sequences differ. -/
theorem c4_counterexample :
    canonicalizeJson (.obj [([66], .num (.int 1)), ([97], .num (.int 2))]) =
      .ok [123, 34, 97, 34, 58, 50, 44, 34, 66, 34, 58, 49, 125] ∧
    canonSpecJson (.obj [([66], .num (.int 1)), ([97], .num (.int 2))]) =
      .ok [123, 34, 66, 34, 58, 49, 44, 34, 97, 34, 58, 50, 125] ∧
    ([123, 34, 97, 34, 58, 50, 44, 34, 66, 34, 58, 49, 125] : JsStr) ≠
      [123, 34, 66, 34, 58, 49, 44, 34, 97, 34, 58, 50, 125] :=
  ⟨rfl, rfl, by decide⟩

/-- C4, witness: determinism applied to a concrete two-field permutation, and
the non-finite failure at `NaN`. -/
theorem c4_witness :
    canonicalizeJson (.obj [([97], .num (.int 1)), ([98], .bool true)]) =
      canonicalizeJson (.obj [([98], .bool true), ([97], .num (.int 1))]) ∧
    canonicalizeJson (.num .nan) = .error "Cannot canonicalize non-finite numbers" :=
  ⟨c4_canonicalize_deterministic.1 [([97], .num (.int 1)), ([98], .bool true)]
      [([98], .bool true), ([97], .num (.int 1))]
      (List.Perm.swap (([98] : JsStr), Json.bool true)
        (([97] : JsStr), Json.num (.int 1)) []) (by decide),
   c4_canonicalize_deterministic.2.2 .nan rfl⟩

theorem strDigits_single_append_inj (s s' : Nat) (cs : List Nat)
    (h : strDigits [s] ++ cs = strDigits [s'] ++ cs) : s = s' := by
  simp only [strDigits, List.map_cons, List.map_nil, List.flatten_cons, List.flatten_nil,
    List.append_nil, List.append_assoc, List.singleton_append] at h
  obtain ⟨h1, _⟩ := sep_split 10 _ _ _ _
    (fun d hd => by have := revDigits_lt_ten s d hd; omega)
    (fun d hd => by have := revDigits_lt_ten s' d hd; omega) h
  exact revDigits_injective h1

/-- C5.  Ed25519 envelopes: an envelope signed with a keypair verifies under
its public half (for payloads whose canonical bytes are genuine bytes, i.e.
below 256); verification under any different keypair's public key returns
false; and when the signature check throws (invalid key material),
`verifyEnvelopeEd25519` returns false instead of propagating — it is a total
Boolean function, never an exception. -/
theorem c5_envelope_ed25519 :
    (∀ (p : Json) (kid : JsStr) (seed : Nat) (cs : List Nat) (env : SignedEnvelope),
      canonicalizeJson p = .ok cs → (∀ c ∈ cs, c < 256) →
      signEnvelopeEd25519 p (.ed seed) kid = .ok env →
      verifyEnvelopeEd25519 env (.ed seed) = true) ∧
    (∀ (p : Json) (kid : JsStr) (seed seed' : Nat) (cs : List Nat) (env : SignedEnvelope),
      canonicalizeJson p = .ok cs → (∀ c ∈ cs, c < 256) →
      signEnvelopeEd25519 p (.ed seed) kid = .ok env → seed' ≠ seed →
      verifyEnvelopeEd25519 env (.ed seed') = false) ∧
    (∀ (env : SignedEnvelope) (blob : JsStr),
      verifyEnvelopeEd25519 env (.invalid blob) = false) := by
  have hdec : ∀ (seed : Nat) (cs : List Nat), (∀ c ∈ cs, c < 256) →
      decodeB64 (encodeB64 (strDigits [seed] ++ cs)) = strDigits [seed] ++ cs := by
    intro seed cs hcs
    apply decodeB64_encodeB64
    intro b hb
    rcases List.mem_append.mp hb with hb | hb
    · have := strDigits_lt_eleven [seed] b hb
      omega
    · exact hcs b hb
  have henv : ∀ (p : Json) (kid : JsStr) (seed : Nat) (cs : List Nat) (env : SignedEnvelope),
      canonicalizeJson p = .ok cs → signEnvelopeEd25519 p (.ed seed) kid = .ok env →
      env = ⟨edAlgCodes, kid, encodeB64 cs, encodeB64 (strDigits [seed] ++ cs)⟩ := by
    intro p kid seed cs env hcanon hsign
    unfold signEnvelopeEd25519 at hsign
    rw [hcanon] at hsign
    exact (Except.ok.inj hsign).symm
  refine ⟨?_, ?_, ?_⟩
  · intro p kid seed cs env hcanon hcs hsign
    rw [henv p kid seed cs env hcanon hsign]
    simp only [verifyEnvelopeEd25519, cryptoVerify,
      decodeB64_encodeB64 cs (fun c hc => hcs c hc), hdec seed cs hcs]
    simp
  · intro p kid seed seed' cs env hcanon hcs hsign hne
    rw [henv p kid seed cs env hcanon hsign]
    simp only [verifyEnvelopeEd25519, cryptoVerify,
      decodeB64_encodeB64 cs (fun c hc => hcs c hc), hdec seed cs hcs]
    simp only [decide_eq_false_iff_not]
    intro h
    exact hne (strDigits_single_append_inj seed seed' cs h).symm
  · intro env blob
    rfl

/-- C5, witness: a concrete payload signed with seed 7 verifies under seed 7,
fails under seed 8, and an invalid public key yields false. -/
theorem c5_witness :
    ∃ env : SignedEnvelope,
      signEnvelopeEd25519 (.str [104, 105]) (.ed 7) [107] = .ok env ∧
      verifyEnvelopeEd25519 env (.ed 7) = true ∧
      verifyEnvelopeEd25519 env (.ed 8) = false ∧
      verifyEnvelopeEd25519 env (.invalid [120]) = false := by
  refine ⟨_, rfl, ?_, ?_, ?_⟩
  · exact c5_envelope_ed25519.1 (.str [104, 105]) [107] 7 (jsonEscape [104, 105]) _
      rfl (by decide) rfl
  · exact c5_envelope_ed25519.2.1 (.str [104, 105]) [107] 7 8 (jsonEscape [104, 105]) _
      rfl (by decide) rfl (by decide)
  · exact c5_envelope_ed25519.2.2 _ [120]

set_option maxHeartbeats 2000000 in
/-- Exhaustive description of one middleware pass: either it lets the request
through — then the nonce check accepted and produced the new state — or it
answers with a non-200 status, mutating the nonce state only by that same
check (when it got that far). -/
theorem authCheck_cases (k : JsStr) (w mx : Int) (req : MeshRequest) (ns : NonceState) :
    ((authCheck k w mx req ns).1 = none ∧
      (NonceTracker.check (w * 1000) req.now req.msg.nonce req.msg.timestamp ns).1 = true ∧
      (authCheck k w mx req ns).2 =
        (NonceTracker.check (w * 1000) req.now req.msg.nonce req.msg.timestamp ns).2) ∨
    (∃ s e, (authCheck k w mx req ns).1 = some (s, e) ∧ s ≠ 200 ∧
      ((authCheck k w mx req ns).2 = ns ∨
        (authCheck k w mx req ns).2 =
          (NonceTracker.check (w * 1000) req.now req.msg.nonce req.msg.timestamp ns).2)) := by
  obtain ⟨now, ep, tok, len, msg⟩ := req
  cases tok with
  | none => exact Or.inr ⟨401, "Missing or invalid authorization", rfl, by omega, Or.inl rfl⟩
  | some token =>
    have heq : authCheck k w mx ⟨now, ep, some token, len, msg⟩ ns =
        (if token ≠ k then (some (401, "Invalid mesh key"), ns)
         else if len > mx then (some (413, "Message too large"), ns)
         else if msg.id = [] ∨ msg.nonce = [] ∨ msg.timestamp = 0 ∨ msg.hmac = [] then
           (some (400, "Invalid message format"), ns)
         else if ¬isTimestampValid now msg.timestamp w then
           (some (400, "Message timestamp expired"), ns)
         else if (NonceTracker.check (w * 1000) now msg.nonce msg.timestamp ns).1 = false then
           (some (400, "Duplicate nonce (replay detected)"),
             (NonceTracker.check (w * 1000) now msg.nonce msg.timestamp ns).2)
         else
           match verifyHmac k ⟨msg.id, msg.type, msg.payload, msg.timestamp, msg.nonce⟩
             msg.hmac with
           | .ok true => (none, (NonceTracker.check (w * 1000) now msg.nonce msg.timestamp ns).2)
           | .ok false => (some (400, "HMAC verification failed"),
               (NonceTracker.check (w * 1000) now msg.nonce msg.timestamp ns).2)
           | .error e => (some (500, e),
               (NonceTracker.check (w * 1000) now msg.nonce msg.timestamp ns).2)) := rfl
    by_cases h1 : token ≠ k
    · rw [if_pos h1] at heq
      exact Or.inr ⟨401, "Invalid mesh key", by rw [heq], by omega, Or.inl (by rw [heq])⟩
    · rw [if_neg h1] at heq
      by_cases h2 : len > mx
      · rw [if_pos h2] at heq
        exact Or.inr ⟨413, "Message too large", by rw [heq], by omega, Or.inl (by rw [heq])⟩
      · rw [if_neg h2] at heq
        by_cases h3 : msg.id = [] ∨ msg.nonce = [] ∨ msg.timestamp = 0 ∨ msg.hmac = []
        · rw [if_pos h3] at heq
          exact Or.inr ⟨400, "Invalid message format", by rw [heq], by omega,
            Or.inl (by rw [heq])⟩
        · rw [if_neg h3] at heq
          by_cases h4 : ¬isTimestampValid now msg.timestamp w
          · rw [if_pos h4] at heq
            exact Or.inr ⟨400, "Message timestamp expired", by rw [heq], by omega,
              Or.inl (by rw [heq])⟩
          · rw [if_neg h4] at heq
            by_cases h5 : (NonceTracker.check (w * 1000) now msg.nonce msg.timestamp ns).1
                = false
            · rw [if_pos h5] at heq
              exact Or.inr ⟨400, "Duplicate nonce (replay detected)", by rw [heq], by omega,
                Or.inr (by rw [heq])⟩
            · rw [if_neg h5] at heq
              have hacc : (NonceTracker.check (w * 1000) now msg.nonce msg.timestamp ns).1
                  = true := by
                simpa using h5
              cases hv : verifyHmac k ⟨msg.id, msg.type, msg.payload, msg.timestamp, msg.nonce⟩
                  msg.hmac with
              | error e =>
                rw [hv] at heq
                exact Or.inr ⟨500, e, by rw [heq], by omega, Or.inr (by rw [heq])⟩
              | ok b =>
                cases b with
                | true =>
                  rw [hv] at heq
                  exact Or.inl ⟨by rw [heq], hacc, by rw [heq]⟩
                | false =>
                  rw [hv] at heq
                  exact Or.inr ⟨400, "HMAC verification failed", by rw [heq], by omega,
                    Or.inr (by rw [heq])⟩

theorem authCheck_nonces (k : JsStr) (w mx : Int) (req : MeshRequest) (ns : NonceState) :
    (authCheck k w mx req ns).2 = ns ∨
    (authCheck k w mx req ns).2 =
      (NonceTracker.check (w * 1000) req.now req.msg.nonce req.msg.timestamp ns).2 := by
  rcases authCheck_cases k w mx req ns with ⟨_, _, h⟩ | ⟨_, _, _, _, h⟩
  · exact Or.inr h
  · exact h

theorem authCheck_pass (k : JsStr) (w mx : Int) (req : MeshRequest) (ns : NonceState)
    (h : (authCheck k w mx req ns).1 = none) :
    (NonceTracker.check (w * 1000) req.now req.msg.nonce req.msg.timestamp ns).1 = true ∧
    (authCheck k w mx req ns).2 =
      (NonceTracker.check (w * 1000) req.now req.msg.nonce req.msg.timestamp ns).2 := by
  rcases authCheck_cases k w mx req ns with ⟨_, h1, h2⟩ | ⟨s, e, hsome, _, _⟩
  · exact ⟨h1, h2⟩
  · rw [hsome] at h
    exact absurd h (by simp)

theorem authCheck_some_ne_200 (k : JsStr) (w mx : Int) (req : MeshRequest) (ns : NonceState)
    (s : Nat) (e : String) (h : (authCheck k w mx req ns).1 = some (s, e)) : s ≠ 200 := by
  rcases authCheck_cases k w mx req ns with ⟨hnone, _, _⟩ | ⟨s', e', hsome, hs, _⟩
  · rw [hnone] at h
    exact absurd h (by simp)
  · rw [hsome] at h
    obtain ⟨rfl, rfl⟩ : s' = s ∧ e' = e := by
      have := Option.some.inj h
      exact ⟨congrArg Prod.fst this, congrArg Prod.snd this⟩
    exact hs

/-- An accepted (200) request passed the auth middleware: its nonce check
returned true and the new nonce state is the check's. -/
theorem handleMeshPost_accept (k a : JsStr) (w mx : Int) (req : MeshRequest)
    (st : ServerState) (h : (handleMeshPost k a w mx req st).1 = 200) :
    (NonceTracker.check (w * 1000) req.now req.msg.nonce req.msg.timestamp st.nonces).1
      = true ∧
    (handleMeshPost k a w mx req st).2.nonces =
      (NonceTracker.check (w * 1000) req.now req.msg.nonce req.msg.timestamp st.nonces).2 := by
  rcases hauth : authCheck k w mx req st.nonces with ⟨res, ns'⟩
  cases res with
  | some p =>
    exfalso
    obtain ⟨s, e⟩ := p
    have hs : (handleMeshPost k a w mx req st).1 = s := by
      unfold handleMeshPost
      rw [hauth]
    rw [hs] at h
    exact authCheck_some_ne_200 k w mx req st.nonces s e (by rw [hauth]) h
  | none =>
    have hp := authCheck_pass k w mx req st.nonces (by rw [hauth])
    have hns : (handleMeshPost k a w mx req st).2.nonces = ns' := by
      unfold handleMeshPost
      rw [hauth]
    rw [hauth] at hp
    exact ⟨hp.1, by rw [hns]; exact hp.2⟩

/-- Every request step preserves a nonce entry or only drops it once it is
outside the window of that step's clock. -/
theorem handleMeshPost_persists (k a : JsStr) (w mx : Int) (req : MeshRequest)
    (st : ServerState) (e : JsStr × Int) (he : e ∈ st.nonces) :
    e ∈ (handleMeshPost k a w mx req st).2.nonces ∨ e.2 < req.now - w * 1000 := by
  have hn : (handleMeshPost k a w mx req st).2.nonces = (authCheck k w mx req st.nonces).2 := by
    rcases hauth : authCheck k w mx req st.nonces with ⟨res, ns'⟩
    unfold handleMeshPost
    rw [hauth]
    cases res with
    | some p =>
      obtain ⟨s, e⟩ := p
      rfl
    | none => rfl
  rw [hn]
  rcases authCheck_nonces k w mx req st.nonces with h | h
  · rw [h]; exact Or.inl he
  · rw [h]
    exact NonceTracker.check_persists (w * 1000) req.now req.msg.nonce req.msg.timestamp
      st.nonces e he

theorem serverRun_persists (k a : JsStr) (w mx : Int) (reqs : List MeshRequest)
    (bound : Int) (hreqs : ∀ r ∈ reqs, r.now ≤ bound) :
    ∀ (st : ServerState) (e : JsStr × Int), e ∈ st.nonces →
      e ∈ (serverRun k a w mx reqs st).nonces ∨ e.2 < bound - w * 1000 := by
  induction reqs with
  | nil => intro st e he; exact Or.inl he
  | cons r rs ih =>
    intro st e he
    have hr : r.now ≤ bound := hreqs r (by simp)
    rcases handleMeshPost_persists k a w mx r st e he with h | h
    · exact ih (fun x hx => hreqs x (by simp [hx])) _ e h
    · exact Or.inr (by omega)

/-- C9.  Amended: the server enforces uniqueness of *nonces*, not message
ids — two accepted-and-enqueued messages can share an id (see the
counterexample).  What holds instead: across a run of the authenticated
message surface whose interleaved requests' clocks do not exceed the later
call's, two accepted (200) requests can carry the same nonce only if the
first's recorded observation timestamp has left the replay window by the
time of the second acceptance. -/
theorem c9_nonce_window (k a : JsStr) (w mx : Int) (st : ServerState)
    (req1 req2 : MeshRequest) (reqs : List MeshRequest)
    (h1 : (handleMeshPost k a w mx req1 st).1 = 200)
    (hops : ∀ r ∈ reqs, r.now ≤ req2.now)
    (h2 : (handleMeshPost k a w mx req2
      (serverRun k a w mx reqs (handleMeshPost k a w mx req1 st).2)).1 = 200)
    (hn : req2.msg.nonce = req1.msg.nonce) :
    req1.msg.timestamp < req2.now - w * 1000 := by
  obtain ⟨hc1, hs1⟩ := handleMeshPost_accept k a w mx req1 st h1
  have hmem : (req1.msg.nonce, req1.msg.timestamp) ∈
      (handleMeshPost k a w mx req1 st).2.nonces := by
    rw [hs1]
    exact NonceTracker.check_mem_of_true _ _ _ _ _ hc1
  rcases serverRun_persists k a w mx reqs req2.now hops _ _ hmem with h | h
  · by_contra hfresh
    obtain ⟨hc2, _⟩ := handleMeshPost_accept k a w mx req2 _ h2
    rw [hn] at hc2
    have := NonceTracker.check_false_of_mem (w * 1000) req2.now req1.msg.nonce
      req2.msg.timestamp req1.msg.timestamp _ h (by omega)
    rw [this] at hc2
    exact Bool.false_ne_true hc2
  · exact h

/-- C9, counterexample to the claim as stated: two wire messages sharing the
id `"A"` but carrying distinct nonces (with valid MACs) are both accepted by
`/mesh/msg` in one run, leaving two queued messages with the same id. -/
theorem c9_counterexample :
    (handleMeshPost [107] [97] 60 1000000
      ⟨10, .msgE, some [107], 50,
        ⟨[65], [98], [97], [109], [112], none, 5, [110, 49],
          signMessage [107] ⟨[65], [109], [112], 5, [110, 49]⟩⟩⟩
      ⟨[], MessageQueue.empty⟩).1 = 200 ∧
    (handleMeshPost [107] [97] 60 1000000
      ⟨10, .msgE, some [107], 50,
        ⟨[65], [98], [97], [109], [112], none, 5, [110, 50],
          signMessage [107] ⟨[65], [109], [112], 5, [110, 50]⟩⟩⟩
      (handleMeshPost [107] [97] 60 1000000
        ⟨10, .msgE, some [107], 50,
          ⟨[65], [98], [97], [109], [112], none, 5, [110, 49],
            signMessage [107] ⟨[65], [109], [112], 5, [110, 49]⟩⟩⟩
        ⟨[], MessageQueue.empty⟩).2).1 = 200 ∧
    ((handleMeshPost [107] [97] 60 1000000
      ⟨10, .msgE, some [107], 50,
        ⟨[65], [98], [97], [109], [112], none, 5, [110, 50],
          signMessage [107] ⟨[65], [109], [112], 5, [110, 50]⟩⟩⟩
      (handleMeshPost [107] [97] 60 1000000
        ⟨10, .msgE, some [107], 50,
          ⟨[65], [98], [97], [109], [112], none, 5, [110, 49],
            signMessage [107] ⟨[65], [109], [112], 5, [110, 49]⟩⟩⟩
        ⟨[], MessageQueue.empty⟩).2).2.queue.queue.map IncomingMessage.id) = [[65], [65]] :=
  ⟨rfl, rfl, rfl⟩

/-- C9, witness: the amended theorem at a concrete run — under a 1-second
window, a message with observation timestamp 1 accepted at clock 1001, whose
nonce is re-accepted at clock 1003 (after pruning), satisfies
`1 < 1003 - 1000`. -/
theorem c9_witness :
    (handleMeshPost [107] [97] 1 1000000
      ⟨1001, .msgE, some [107], 50,
        ⟨[65], [98], [97], [109], [112], none, 1, [110],
          signMessage [107] ⟨[65], [109], [112], 1, [110]⟩⟩⟩
      ⟨[], MessageQueue.empty⟩).1 = 200 ∧
    (handleMeshPost [107] [97] 1 1000000
      ⟨1003, .msgE, some [107], 50,
        ⟨[66], [98], [97], [109], [112], none, 1003, [110],
          signMessage [107] ⟨[66], [109], [112], 1003, [110]⟩⟩⟩
      (serverRun [107] [97] 1 1000000 []
        (handleMeshPost [107] [97] 1 1000000
          ⟨1001, .msgE, some [107], 50,
            ⟨[65], [98], [97], [109], [112], none, 1, [110],
              signMessage [107] ⟨[65], [109], [112], 1, [110]⟩⟩⟩
          ⟨[], MessageQueue.empty⟩).2)).1 = 200 ∧
    (1 : Int) < 1003 - 1 * 1000 := by
  refine ⟨rfl, rfl, ?_⟩
  exact c9_nonce_window [107] [97] 1 1000000 ⟨[], MessageQueue.empty⟩
    ⟨1001, .msgE, some [107], 50,
      ⟨[65], [98], [97], [109], [112], none, 1, [110],
        signMessage [107] ⟨[65], [109], [112], 1, [110]⟩⟩⟩
    ⟨1003, .msgE, some [107], 50,
      ⟨[66], [98], [97], [109], [112], none, 1003, [110],
        signMessage [107] ⟨[66], [109], [112], 1003, [110]⟩⟩⟩
    [] rfl (by simp) rfl rfl

/-- C6.  The bootstrap join route, for requests carrying both a token and a
node public key: an unloadable pinned root key yields 503; any invite
verification failure yields 401; token-mesh mismatch, token/request node-key
mismatch, or the clock lying outside `[nbf - 60s, exp + 60s]` (the two
`jsLtNum` checks) yields 403; a declared `minManifestVersion` above the local
manifest's version yields 412 (and an unloadable or unparsable manifest
503); otherwise the response is 200 carrying the signed manifest envelope. -/
theorem c6_bootstrap_join :
    (∀ (meshName : JsStr) (e : String) (mf : Except String SignedEnvelope) (now : Int)
      (token : List Nat) (npk : JsStr),
      bootstrapJoin meshName (.error e) mf now ⟨some token, some npk⟩ = .failure 503 e) ∧
    (∀ (meshName : JsStr) (root : PemKey) (mf : Except String SignedEnvelope) (now : Int)
      (token : List Nat) (npk : JsStr),
      (verifyInviteToken token root).ok = false →
      ∃ err, bootstrapJoin meshName (.ok root) mf now ⟨some token, some npk⟩ =
        .failure 401 err) ∧
    (∀ (meshName : JsStr) (root : PemKey) (mf : Except String SignedEnvelope) (now : Int)
      (token : List Nat) (npk : JsStr) (p : InviteTokenPayload),
      verifyInviteToken token root = ⟨true, some p, none⟩ →
      p.mesh ≠ meshName →
      bootstrapJoin meshName (.ok root) mf now ⟨some token, some npk⟩ =
        .failure 403 "Invite mesh mismatch") ∧
    (∀ (meshName : JsStr) (root : PemKey) (mf : Except String SignedEnvelope) (now : Int)
      (token : List Nat) (npk : JsStr) (p : InviteTokenPayload),
      verifyInviteToken token root = ⟨true, some p, none⟩ →
      p.mesh = meshName → p.nodePubKey ≠ npk →
      bootstrapJoin meshName (.ok root) mf now ⟨some token, some npk⟩ =
        .failure 403 "Invite not valid for this node key") ∧
    (∀ (meshName : JsStr) (root : PemKey) (mf : Except String SignedEnvelope) (now : Int)
      (token : List Nat) (npk : JsStr) (p : InviteTokenPayload),
      verifyInviteToken token root = ⟨true, some p, none⟩ →
      p.mesh = meshName → p.nodePubKey = npk →
      jsLtNum (.int (now + 60000)) p.nbf = true →
      bootstrapJoin meshName (.ok root) mf now ⟨some token, some npk⟩ =
        .failure 403 "Invite not yet valid") ∧
    (∀ (meshName : JsStr) (root : PemKey) (mf : Except String SignedEnvelope) (now : Int)
      (token : List Nat) (npk : JsStr) (p : InviteTokenPayload),
      verifyInviteToken token root = ⟨true, some p, none⟩ →
      p.mesh = meshName → p.nodePubKey = npk →
      jsLtNum (.int (now + 60000)) p.nbf = false →
      jsLtNum p.exp (.int (now - 60000)) = true →
      bootstrapJoin meshName (.ok root) mf now ⟨some token, some npk⟩ =
        .failure 403 "Invite expired") ∧
    (∀ (meshName : JsStr) (root : PemKey) (e : String) (now : Int)
      (token : List Nat) (npk : JsStr) (p : InviteTokenPayload),
      verifyInviteToken token root = ⟨true, some p, none⟩ →
      p.mesh = meshName → p.nodePubKey = npk →
      jsLtNum (.int (now + 60000)) p.nbf = false →
      jsLtNum p.exp (.int (now - 60000)) = false →
      bootstrapJoin meshName (.ok root) (.error e) now ⟨some token, some npk⟩ =
        .failure 503 e) ∧
    (∀ (meshName : JsStr) (root : PemKey) (manifest : SignedEnvelope) (now : Int)
      (token : List Nat) (npk : JsStr) (p : InviteTokenPayload) (mj : Json) (mv : JNum),
      verifyInviteToken token root = ⟨true, some p, none⟩ →
      p.mesh = meshName → p.nodePubKey = npk →
      jsLtNum (.int (now + 60000)) p.nbf = false →
      jsLtNum p.exp (.int (now - 60000)) = false →
      parseEnvelopePayload manifest = .ok mj →
      p.minManifestVersion = some mv →
      jsUndefLt (versionOf mj) mv = true →
      bootstrapJoin meshName (.ok root) (.ok manifest) now ⟨some token, some npk⟩ =
        .failure 412 "Peer manifest version is too old") ∧
    (∀ (meshName : JsStr) (root : PemKey) (manifest : SignedEnvelope) (now : Int)
      (token : List Nat) (npk : JsStr) (p : InviteTokenPayload) (mj : Json) (mv : JNum),
      verifyInviteToken token root = ⟨true, some p, none⟩ →
      p.mesh = meshName → p.nodePubKey = npk →
      jsLtNum (.int (now + 60000)) p.nbf = false →
      jsLtNum p.exp (.int (now - 60000)) = false →
      parseEnvelopePayload manifest = .ok mj →
      p.minManifestVersion = some mv →
      jsUndefLt (versionOf mj) mv = false →
      bootstrapJoin meshName (.ok root) (.ok manifest) now ⟨some token, some npk⟩ =
        .success meshName p.agent now manifest) ∧
    (∀ (meshName : JsStr) (root : PemKey) (manifest : SignedEnvelope) (now : Int)
      (token : List Nat) (npk : JsStr) (p : InviteTokenPayload) (mj : Json),
      verifyInviteToken token root = ⟨true, some p, none⟩ →
      p.mesh = meshName → p.nodePubKey = npk →
      jsLtNum (.int (now + 60000)) p.nbf = false →
      jsLtNum p.exp (.int (now - 60000)) = false →
      parseEnvelopePayload manifest = .ok mj →
      p.minManifestVersion = none →
      bootstrapJoin meshName (.ok root) (.ok manifest) now ⟨some token, some npk⟩ =
        .success meshName p.agent now manifest) := by
  refine ⟨?_, ?_, ?_, ?_, ?_, ?_, ?_, ?_, ?_, ?_⟩
  · intro meshName e mf now token npk
    rfl
  · intro meshName root mf now token npk hok
    refine ⟨(verifyInviteToken token root).error.getD "Invalid invite token", ?_⟩
    simp only [bootstrapJoin]
    rcases hv : verifyInviteToken token root with ⟨ok, pl, err⟩
    rw [hv] at hok
    simp only at hok
    subst hok
    rfl
  · intro meshName root mf now token npk p hv hmesh
    simp only [bootstrapJoin, hv, if_pos hmesh]
  · intro meshName root mf now token npk p hv hmesh hnpk
    simp only [bootstrapJoin, hv]
    rw [if_neg (by simp [hmesh]), if_pos hnpk]
  · intro meshName root mf now token npk p hv hmesh hnpk hnbf
    simp only [bootstrapJoin, hv]
    rw [if_neg (by simp [hmesh]), if_neg (by simp [hnpk]), if_pos (by rw [hnbf])]
  · intro meshName root mf now token npk p hv hmesh hnpk hnbf hexp
    simp only [bootstrapJoin, hv]
    rw [if_neg (by simp [hmesh]), if_neg (by simp [hnpk]),
      if_neg (by rw [hnbf]; simp), if_pos (by rw [hexp])]
  · intro meshName root e now token npk p hv hmesh hnpk hnbf hexp
    simp only [bootstrapJoin, hv]
    rw [if_neg (by simp [hmesh]), if_neg (by simp [hnpk]),
      if_neg (by rw [hnbf]; simp), if_neg (by rw [hexp]; simp)]
  · intro meshName root manifest now token npk p mj mv hv hmesh hnpk hnbf hexp hparse hmin hlt
    simp only [bootstrapJoin, hv]
    rw [if_neg (by simp [hmesh]), if_neg (by simp [hnpk]),
      if_neg (by rw [hnbf]; simp), if_neg (by rw [hexp]; simp)]
    simp only [hparse, hmin]
    rw [if_pos (by rw [hlt])]
  · intro meshName root manifest now token npk p mj mv hv hmesh hnpk hnbf hexp hparse hmin hlt
    simp only [bootstrapJoin, hv]
    rw [if_neg (by simp [hmesh]), if_neg (by simp [hnpk]),
      if_neg (by rw [hnbf]; simp), if_neg (by rw [hexp]; simp)]
    simp only [hparse, hmin]
    rw [if_neg (by rw [hlt]; simp)]
  · intro meshName root manifest now token npk p mj hv hmesh hnpk hnbf hexp hparse hmin
    simp only [bootstrapJoin, hv]
    rw [if_neg (by simp [hmesh]), if_neg (by simp [hnpk]),
      if_neg (by rw [hnbf]; simp), if_neg (by rw [hexp]; simp)]
    simp only [hparse, hmin]

/-- Witness data for the bootstrap join flow: an invite payload for mesh
`"m"`, agent `"q"`, node key `"P"`, valid from 0 to 1000000. -/
def c6InviteJson : Json :=
  .obj [(vKey, .num (.int 1)), (meshKey, .str [109]), (agentKey, .str [113]),
    (nodePubKeyKey, .str [80]), (jtiKey, .str [106]), (iatKey, .num (.int 0)),
    (nbfKey, .num (.int 0)), (expKey, .num (.int 1000000))]

def c6ManifestJson : Json := .obj [(meshKey, .str [109]), (versionKey, .num (.int 3))]

def c6Token : List Nat := (createInviteToken c6InviteJson (.ed 7)).toOption.getD []

def c6Env : SignedEnvelope :=
  (signEnvelopeEd25519 c6ManifestJson (.ed 7) [107]).toOption.getD ⟨[], [], [], []⟩

def c6Payload : InviteTokenPayload :=
  (verifyInviteToken c6Token (.ed 7)).payload.getD
    ⟨[], [], [], [], .nan, .nan, .nan, none, none⟩

def c6ManifestParsed : Json := (parseEnvelopePayload c6Env).toOption.getD .null

/-- C6, witness: a full concrete 200 pass — an invite for mesh `"m"` bound to
node key `"P"` signed by root seed 7, served with a manifest envelope signed
by the same root, joined at clock 500 — plus the 503 (missing root), 401
(garbage token) and 403 (wrong node key) branches at the same inputs. -/
theorem c6_witness :
    createInviteToken c6InviteJson (.ed 7) = .ok c6Token ∧
    signEnvelopeEd25519 c6ManifestJson (.ed 7) [107] = .ok c6Env ∧
    verifyInviteToken c6Token (.ed 7) = ⟨true, some c6Payload, none⟩ ∧
    bootstrapJoin [109] (.ok (.ed 7)) (.ok c6Env) 500 ⟨some c6Token, some [80]⟩ =
      .success [109] [113] 500 c6Env ∧
    bootstrapJoin [109] (.error "Root public key not found") (.ok c6Env) 500
      ⟨some c6Token, some [80]⟩ = .failure 503 "Root public key not found" ∧
    (∃ err, bootstrapJoin [109] (.ok (.ed 7)) (.ok c6Env) 500 ⟨some [33], some [80]⟩ =
      .failure 401 err) ∧
    bootstrapJoin [109] (.ok (.ed 7)) (.ok c6Env) 500 ⟨some c6Token, some [81]⟩ =
      .failure 403 "Invite not valid for this node key" := by
  refine ⟨rfl, rfl, rfl, ?_, ?_, ?_, ?_⟩
  · exact c6_bootstrap_join.2.2.2.2.2.2.2.2.2 [109] (.ed 7) c6Env 500 c6Token [80]
      c6Payload c6ManifestParsed rfl rfl rfl rfl rfl rfl rfl
  · exact c6_bootstrap_join.1 [109] "Root public key not found" (.ok c6Env) 500 c6Token [80]
  · exact c6_bootstrap_join.2.1 [109] (.ed 7) (.ok c6Env) 500 [33] [80] rfl
  · exact c6_bootstrap_join.2.2.2.1 [109] (.ed 7) (.ok c6Env) 500 c6Token [81] c6Payload
      rfl rfl (by decide)

/-- C10, witness: the response-handler conjunct at a concrete request. -/
theorem c10_witness :
    (routeHandle [97]
      ⟨0, .respE, some [107], 10, ⟨[65], [98], [97], [109], [112], some [66], 5, [110], []⟩⟩
      MessageQueue.empty).2.queue = MessageQueue.empty.queue :=
  c10_frame_disjoint.2.2.2.2.2.2 [97]
    ⟨0, .respE, some [107], 10, ⟨[65], [98], [97], [109], [112], some [66], 5, [110], []⟩⟩
    MessageQueue.empty rfl

end Meshbot
